import Mathlib

/-!
Verification of the pyramid document/property engine (src/src/document.rs).

The Rust source is shallowly embedded below.  Conventions used throughout:

* HashMap is modelled as an association list with first-match lookup
  (hmGet) and replace-or-append insertion (hmInsert), matching the map
  behaviour of std::collections::HashMap for the operations the source
  uses.  Iteration order of a HashMap is unspecified in Rust; no claim
  below depends on it (the only iterated maps are Pon objects, whose
  iteration order is irrelevant to every statement proved here).
* The shared mutable expression cells Rc<RefCell<Pon>> are modelled as an
  explicit arena: Document.cells is the list of all allocated cells and a
  handle is the index of a cell.  Cloning a handle copies the index;
  allocating Rc::new(RefCell::new(p)) appends p to the arena.
* EntityId is u64 in the source; it is modelled as Nat.  The id counter
  starts at 0 and is only ever incremented, so wrap-around at 2^64 is
  unreachable before 2^64 append calls and is not modelled.  The
  distinguished "no parent" sentinel (-1 as u64) is the constant SENTINEL.
* Functions whose Rust counterparts can fail return Except DocError; an
  outer Option layer (none) marks outcomes with no Rust return value at
  all: a reached unwrap of an error value, or unbounded recursion
  (the recursive walks carry explicit fuel; exhausted fuel is none).
-/

/-- Error taxonomy of the document engine (enum DocError, document.rs).
The PonTranslateErr variant carries a foreign parser error that never
arises in the operations modelled here and is omitted. -/
inductive DocError where
  | BadReference
  | NoSuchProperty (name : String)
  | NoSuchEntity
  | InvalidParent
deriving DecidableEq, Repr

/-- Fully resolved property identity: entity id plus property key
(struct PropRef from pon.rs, used pervasively by document.rs). -/
structure PropRef where
  entity_id : Nat
  property_key : String
deriving DecidableEq, Repr

/-- Symbolic entity path (enum EntityPath from pon.rs; its four variants are
the ones document.rs matches on in resolve_entity_path). -/
inductive EntityPath where
  | this
  | parent
  | named (name : String)
  | search (base : EntityPath) (childName : String)
deriving DecidableEq, Repr

/-- Unresolved reference found inside an expression: symbolic path plus
property key (struct NamedPropRef from pon.rs). -/
structure NamedPropRef where
  entity_path : EntityPath
  property_key : String
deriving DecidableEq, Repr

/-- Expression values (enum Pon from pon.rs).  The variants are the ones
document.rs constructs or matches on: typed wrapper, unresolved and
resolved dependency references, keyed object, array, nil, plus opaque
literal scalars (the spec treats scalar payloads as opaque; a float
literal is carried as its source text and never computed with).
A resolved dependency reference holds a shared cell handle, modelled as
an index into the document's cell arena. -/
inductive Pon where
  | Nil
  | Integer (n : Int)
  | Float (repr : String)
  | Str (s : String)
  | TypedPon (type_name : String) (data : Pon)
  | DependencyReference (r : NamedPropRef)
  | ResolvedDependencyReference (cell : Nat)
  | Object (fields : List (String × Pon))
  | Array (elems : List Pon)
deriving Repr

/-- Association-list lookup, first binding wins (HashMap::get). -/
def hmGet {α β : Type} [DecidableEq α] : List (α × β) → α → Option β
  | [], _ => none
  | (k', v) :: rest, k => if k' = k then some v else hmGet rest k

/-- Association-list insertion: replace the first binding of the key in
place, or append a fresh binding (HashMap::insert). -/
def hmInsert {α β : Type} [DecidableEq α] : List (α × β) → α → β → List (α × β)
  | [], k, v => [(k, v)]
  | (k', v') :: rest, k, v =>
    if k' = k then (k', v) :: rest else (k', v') :: hmInsert rest k v

/-- A property: a handle to its shared expression cell and its dependant
list (struct Property, document.rs lines 42-46). -/
structure Property where
  expression : Nat
  dependants : List PropRef
deriving DecidableEq, Repr

/-- An entity of the document tree (struct Entity, document.rs lines 48-56). -/
structure Entity where
  id : Nat
  type_name : String
  properties : List (String × Property)
  name : Option String
  children_ids : List Nat
  parent_id : Nat
deriving Repr

/-- The document: id counter, root id, entity table, name index
(struct Document, document.rs lines 70-75), plus the explicit arena of
expression cells standing for the Rc<RefCell<Pon>> heap. -/
structure Document where
  id_counter : Nat
  root : Nat
  entities : List (Nat × Entity)
  entity_ids_by_name : List (String × Nat)
  cells : List Pon
deriving Repr

/-- The u64 value of -1, used by the source as the "no parent" sentinel. -/
def SENTINEL : Nat := 18446744073709551615

/-- Document::new (document.rs lines 78-85). -/
def Document.new : Document :=
  { id_counter := 0, root := 1, entities := [], entity_ids_by_name := [], cells := [] }

/-- Reading a cell through a handle (borrow of the RefCell).  A handle
produced by the engine always indexes an allocated cell; out-of-range
indices (impossible in reachable documents) default to Nil. -/
def readCell (d : Document) (cell : Nat) : Pon :=
  d.cells.getD cell Pon.Nil

/-- Document::append_entity (document.rs lines 90-112).  Note that the id
counter is advanced before the parent is validated, exactly as in the
source (new_id is called first), so a failed append still consumes an id. -/
def append_entity (d0 : Document) (parent_id : Nat) (type_name : String)
    (name : Option String) : Document × Except DocError Nat :=
  let id := d0.id_counter + 1
  let d1 : Document := { d0 with id_counter := id }
  let entity : Entity :=
    { id := id, type_name := type_name, properties := [], name := name,
      children_ids := [], parent_id := parent_id }
  let linked : Except DocError Document :=
    if parent_id = SENTINEL then .ok d1
    else
      match hmGet d1.entities parent_id with
      | none => .error .InvalidParent
      | some parent =>
        let parent2 : Entity := { parent with children_ids := parent.children_ids ++ [id] }
        .ok { d1 with entities := hmInsert d1.entities parent_id parent2 }
  match linked with
  | .error e => (d1, .error e)
  | .ok d2 =>
    let d3 : Document :=
      match entity.name with
      | some n => { d2 with entity_ids_by_name := hmInsert d2.entity_ids_by_name n id }
      | none => d2
    ({ d3 with entities := hmInsert d3.entities id entity }, .ok id)

/-- Document::get_entity_by_name (document.rs lines 113-118). -/
def get_entity_by_name (d : Document) (name : String) : Option Nat :=
  hmGet d.entity_ids_by_name name

mutual

/-- Document::search_children (document.rs lines 192-210): if the entity
carries the searched name return it, otherwise try the children in order,
skipping failed subtrees; BadReference when nothing in the subtree
matches or the id resolves to no entity.  Fuel bounds the recursion
depth; none is exhaustion (the Rust recursion is unbounded). -/
def search_children : Nat → Document → Nat → String → Option (Except DocError Nat)
  | 0, _, _, _ => none
  | fuel + 1, d, entity_id, name =>
    match hmGet d.entities entity_id with
    | none => some (.error .BadReference)
    | some entity =>
      if entity.name = some name then some (.ok entity.id)
      else search_children_list fuel d entity.children_ids name
termination_by fuel _ _ _ => (fuel, 0)

/-- The child loop of Document::search_children (document.rs lines 200-205). -/
def search_children_list : Nat → Document → List Nat → String → Option (Except DocError Nat)
  | _, _, [], _ => some (.error .BadReference)
  | 0, _, _ :: _, _ => none
  | fuel + 1, d, c :: rest, name =>
    match search_children fuel d c name with
    | none => none
    | some (.ok id) => some (.ok id)
    | some (.error _) => search_children_list (fuel + 1) d rest name
termination_by fuel _ l _ => (fuel, l.length)

end

/-- Document::resolve_entity_path (document.rs lines 211-229). -/
def resolve_entity_path (fuel : Nat) (d : Document) (start_entity_id : Nat) :
    EntityPath → Option (Except DocError Nat)
  | .this => some (.ok start_entity_id)
  | .parent =>
    some (match hmGet d.entities start_entity_id with
      | some entity => .ok entity.parent_id
      | none => .error .BadReference)
  | .named n =>
    some (match hmGet d.entity_ids_by_name n with
      | some entity_id => .ok entity_id
      | none => .error .BadReference)
  | .search base childName =>
    match resolve_entity_path fuel d start_entity_id base with
    | none => none
    | some (.error e) => some (.error e)
    | some (.ok ent) => search_children fuel d ent childName

/-- Document::resolve_named_prop_ref (document.rs lines 230-233). -/
def resolve_named_prop_ref (fuel : Nat) (d : Document) (start_entity_id : Nat)
    (npr : NamedPropRef) : Option (Except DocError PropRef) :=
  match resolve_entity_path fuel d start_entity_id npr.entity_path with
  | none => none
  | some (.error e) => some (.error e)
  | some (.ok owner) => some (.ok { entity_id := owner, property_key := npr.property_key })

/-- Document::get_entity_property_value (document.rs lines 303-308): the
stored expression is read out of the shared cell (borrow().clone()); a
clone of a resolved reference node copies the handle. -/
def get_entity_property_value (d : Document) (entity : Entity) (name : String) :
    Except DocError Pon :=
  match hmGet entity.properties name with
  | some prop => .ok (readCell d prop.expression)
  | none => .error (.NoSuchProperty name)

/-- Document::get_property_value (document.rs lines 168-173). -/
def get_property_value (d : Document) (entity_id : Nat) (name : String) :
    Except DocError Pon :=
  match hmGet d.entities entity_id with
  | some entity => get_entity_property_value d entity name
  | none => .error .NoSuchEntity

mutual

/-- Modelled from the spec: Pon::get_dependency_references from pon.rs,
which is not under src/.  Per the expression-collaborator contract it
recursively enumerates every NamedPropRef embedded anywhere in the
expression, descending through the composite variants (typed wrapper,
keyed object, array); all other variants contribute nothing. -/
def Pon.get_dependency_references : Pon → List NamedPropRef
  | .TypedPon _ data => data.get_dependency_references
  | .DependencyReference npr => [npr]
  | .Object fields => gdrFields fields
  | .Array elems => gdrList elems
  | _ => []

/-- Enumeration over the fields of an object (see
Pon.get_dependency_references). -/
def gdrFields : List (String × Pon) → List NamedPropRef
  | [] => []
  | (_, v) :: rest => v.get_dependency_references ++ gdrFields rest

/-- Enumeration over the elements of an array (see
Pon.get_dependency_references). -/
def gdrList : List Pon → List NamedPropRef
  | [] => []
  | v :: rest => v.get_dependency_references ++ gdrList rest

end

/-- The dependency-resolution loop of Document::build_property_node_dependencies
(document.rs lines 258-261): resolve every enumerated NamedPropRef in
order, aborting at the first failure.  No document state is touched. -/
def resolve_refs (fuel : Nat) (d : Document) (start : Nat) :
    List NamedPropRef → Option (Except DocError (List PropRef))
  | [] => some (.ok [])
  | npr :: rest =>
    match resolve_named_prop_ref fuel d start npr with
    | none => none
    | some (.error e) => some (.error e)
    | some (.ok pr) =>
      match resolve_refs fuel d start rest with
      | none => none
      | some (.error e) => some (.error e)
      | some (.ok prs) => some (.ok (pr :: prs))

/-- Document::build_property_node_dependencies (document.rs lines 255-263).
Resolution starts from the id recorded in the entity record. -/
def build_property_node_dependencies (fuel : Nat) (d : Document) (entity : Entity)
    (node : Pon) : Option (Except DocError (List PropRef)) :=
  resolve_refs fuel d entity.id node.get_dependency_references

/-- One iteration of the dependant-registration loop of
Document::set_property (document.rs lines 135-147): look up the target
entity, then the target property, and push the dependant PropRef onto its
dependant list; a missing entity or missing property is BadReference.
Note that no property is ever created here. -/
def push_dependant (d : Document) (target : PropRef) (dep : PropRef) :
    Document × Except DocError Unit :=
  match hmGet d.entities target.entity_id with
  | none => (d, .error .BadReference)
  | some ent =>
    match hmGet ent.properties target.property_key with
    | none => (d, .error .BadReference)
    | some prop =>
      let prop2 : Property := { prop with dependants := prop.dependants ++ [dep] }
      let ent2 : Entity := { ent with properties := hmInsert ent.properties target.property_key prop2 }
      ({ d with entities := hmInsert d.entities target.entity_id ent2 }, .ok ())

/-- The dependant-registration loop of Document::set_property (document.rs
lines 135-147).  The loop mutates the document as it goes: pushes made
before a failing iteration persist in the returned document. -/
def register_dependants (d : Document) : List PropRef → PropRef → Document × Except DocError Unit
  | [], _ => (d, .ok ())
  | pr :: rest, dep =>
    match push_dependant d pr dep with
    | (d1, .ok _) => register_dependants d1 rest dep
    | (d1, .error e) => (d1, .error e)

/-- Entity::get_or_create_property (document.rs lines 59-67), lifted to the
cell arena: an occupied entry is returned as is; a vacant entry is filled
with a Property holding a freshly allocated cell containing Pon.Nil and an
empty dependant list.  Returns the updated entity, the updated arena and
the property's cell handle. -/
def Entity.get_or_create_property (ent : Entity) (cells : List Pon) (key : String) :
    Entity × List Pon × Nat :=
  match hmGet ent.properties key with
  | some p => (ent, cells, p.expression)
  | none =>
    let cid := cells.length
    let prop : Property := { expression := cid, dependants := [] }
    ({ ent with properties := hmInsert ent.properties key prop }, cells ++ [Pon.Nil], cid)

mutual

/-- Document::resolve_pon_dependencies (document.rs lines 279-301):
structurally rewrite the expression, replacing every unresolved
dependency reference by a resolved reference holding a clone of the
target property's current cell handle (the target property is looked up
with the lazily creating Entity::get_or_create_property).  The document
is threaded because the lookup may create placeholder properties and
cells.  In the source the object and array branches unwrap the recursive
result instead of propagating it, i.e. an inner error aborts the process;
here every inner error propagates to the caller, so a top-level ok result
coincides exactly with the runs in which no unwrap inside this function
can abort. -/
def resolve_pon_dependencies (fuel : Nat) (d : Document) (entity_id : Nat) :
    Pon → Option (Document × Except DocError Pon)
  | .TypedPon tn data =>
    match resolve_pon_dependencies fuel d entity_id data with
    | none => none
    | some (d1, .error e) => some (d1, .error e)
    | some (d1, .ok r) => some (d1, .ok (.TypedPon tn r))
  | .DependencyReference npr =>
    match resolve_named_prop_ref fuel d entity_id npr with
    | none => none
    | some (.error e) => some (d, .error e)
    | some (.ok pr) =>
      match hmGet d.entities pr.entity_id with
      | none => some (d, .error .BadReference)
      | some ent =>
        match ent.get_or_create_property d.cells pr.property_key with
        | (ent2, cells2, cid) =>
          some ({ d with entities := hmInsert d.entities pr.entity_id ent2, cells := cells2 },
                .ok (.ResolvedDependencyReference cid))
  | .Object fields =>
    match rpdFields fuel d entity_id fields with
    | none => none
    | some (d1, .error e) => some (d1, .error e)
    | some (d1, .ok fs) => some (d1, .ok (.Object fs))
  | .Array elems =>
    match rpdList fuel d entity_id elems with
    | none => none
    | some (d1, .error e) => some (d1, .error e)
    | some (d1, .ok rs) => some (d1, .ok (.Array rs))
  | p => some (d, .ok p)

/-- Rewriting loop over object fields (document.rs lines 293-295). -/
def rpdFields (fuel : Nat) (d : Document) (entity_id : Nat) :
    List (String × Pon) → Option (Document × Except DocError (List (String × Pon)))
  | [] => some (d, .ok [])
  | (k, v) :: rest =>
    match resolve_pon_dependencies fuel d entity_id v with
    | none => none
    | some (d1, .error e) => some (d1, .error e)
    | some (d1, .ok r) =>
      match rpdFields fuel d1 entity_id rest with
      | none => none
      | some (d2, .error e) => some (d2, .error e)
      | some (d2, .ok rs) => some (d2, .ok ((k, r) :: rs))

/-- Rewriting loop over array elements (document.rs lines 296-298). -/
def rpdList (fuel : Nat) (d : Document) (entity_id : Nat) :
    List Pon → Option (Document × Except DocError (List Pon))
  | [] => some (d, .ok [])
  | v :: rest =>
    match resolve_pon_dependencies fuel d entity_id v with
    | none => none
    | some (d1, .error e) => some (d1, .error e)
    | some (d1, .ok r) =>
      match rpdList fuel d1 entity_id rest with
      | none => none
      | some (d2, .error e) => some (d2, .error e)
      | some (d2, .ok rs) => some (d2, .ok (r :: rs))

end

mutual

/-- Document::build_property_cascades (document.rs lines 266-277): look up
the property on the given entity (NoSuchProperty when absent) and walk
its dependants.  The accumulator is the cascades vector passed by
reference in the source; the returned list is its final content.  Fuel
bounds the recursion (the dependant graph may be cyclic, in which case
the source recurses forever); none is fuel exhaustion or a reached
unwrap of a missing entity (line 271). -/
def build_property_cascades : Nat → Document → Entity → String → List PropRef →
    Option (Except DocError (List PropRef))
  | 0, _, _, _, _ => none
  | fuel + 1, d, entity, key, acc =>
    match hmGet entity.properties key with
    | some property => bpcLoop fuel d property.dependants acc
    | none => some (.error (.NoSuchProperty key))
termination_by fuel _ _ _ _ => (fuel, 0)

/-- The dependant loop of Document::build_property_cascades (document.rs
lines 269-272): push the dependant, then recurse into it. -/
def bpcLoop : Nat → Document → List PropRef → List PropRef →
    Option (Except DocError (List PropRef))
  | _, _, [], acc => some (.ok acc)
  | 0, _, _ :: _, _ => none
  | fuel + 1, d, pr :: rest, acc =>
    match hmGet d.entities pr.entity_id with
    | none => none
    | some ent =>
      match build_property_cascades fuel d ent pr.property_key (acc ++ [pr]) with
      | none => none
      | some (.error e) => some (.error e)
      | some (.ok acc2) => bpcLoop (fuel + 1) d rest acc2
termination_by fuel _ l _ => (fuel, l.length + 1)

end

/-- The installation step of Document::set_property (document.rs lines
151-162): replace the expression cell handle in place when the property
exists (its dependant list untouched), create the property with an empty
dependant list otherwise. -/
def installProp (d3 : Document) (entity_id : Nat) (name : String) (cid : Nat)
    (ent_mut : Entity) : Document :=
  match hmGet ent_mut.properties name with
  | some prop =>
    let prop2 : Property := { prop with expression := cid }
    let ent2 : Entity := { ent_mut with properties := hmInsert ent_mut.properties name prop2 }
    { d3 with entities := hmInsert d3.entities entity_id ent2 }
  | none =>
    let prop2 : Property := { expression := cid, dependants := [] }
    let ent2 : Entity := { ent_mut with properties := hmInsert ent_mut.properties name prop2 }
    { d3 with entities := hmInsert d3.entities entity_id ent2 }

/-- Document::set_property (document.rs lines 126-167), the central
algorithm: look up the entity, enumerate and resolve the dependencies of
the new expression, register this property as a dependant of each of
them, rewrite the expression with resolved references, install the
rewritten expression in a freshly allocated cell (replacing the cell
handle in place when the property exists, creating the property with an
empty dependant list otherwise), and build the cascade seeded with the
assigned property.  A none result marks the runs with no Rust return
value: a reached unwrap of an error (lines 149, 152, 163, 271) or
unbounded recursion. -/
def set_property (fuel : Nat) (d : Document) (entity_id : Nat) (name : String)
    (expression : Pon) : Option (Document × Except DocError (List PropRef)) :=
  match hmGet d.entities entity_id with
  | none => some (d, .error .NoSuchEntity)
  | some entity =>
    match build_property_node_dependencies fuel d entity expression with
    | none => none
    | some (.error e) => some (d, .error e)
    | some (.ok dependencies) =>
      match register_dependants d dependencies { entity_id := entity_id, property_key := name } with
      | (d1, .error e) => some (d1, .error e)
      | (d1, .ok _) =>
        match resolve_pon_dependencies fuel d1 entity_id expression with
        | none => none
        | some (_, .error _) => none
        | some (d2, .ok resolved) =>
          let cid := d2.cells.length
          let d3 : Document := { d2 with cells := d2.cells ++ [resolved] }
          match hmGet d3.entities entity_id with
          | none => none
          | some ent_mut =>
            let d4 : Document := installProp d3 entity_id name cid ent_mut
            match hmGet d4.entities entity_id with
            | none => none
            | some entity2 =>
              match build_property_cascades fuel d4 entity2 name
                  [{ entity_id := entity_id, property_key := name }] with
              | none => none
              | some (.error e) => some (d4, .error e)
              | some (.ok cascades) => some (d4, .ok cascades)

/-- Runs a list of append requests (parent, type, name) in order,
collecting the identifiers of the successful calls (failed calls still
consume an id, as in the source). -/
def runAppends (d : Document) : List (Nat × String × Option String) → Document × List Nat
  | [] => (d, [])
  | (p, t, n) :: rest =>
    match append_entity d p t n with
    | (d1, .ok id) =>
      match runAppends d1 rest with
      | (d2, ids) => (d2, id :: ids)
    | (d1, .error _) => runAppends d1 rest

mutual

/-- Depth-first pre-order walk of the dependant graph, written from the
specification text of the cascade builder: emit the property itself,
then for each of its dependants, recursively emit that dependant
followed by its own dependants, in dependant-list order.  Fuel bounds
the recursion; none is exhaustion or a dangling reference. -/
def dfs_walk (d : Document) : Nat → PropRef → Option (List PropRef)
  | 0, _ => none
  | fuel + 1, pr =>
    match hmGet d.entities pr.entity_id with
    | none => none
    | some ent =>
      match hmGet ent.properties pr.property_key with
      | none => none
      | some prop =>
        match dfs_walk_deps d fuel prop.dependants with
        | none => none
        | some tails => some (pr :: tails.flatten)
termination_by fuel _ => (fuel, 0)

/-- Pointwise walk of a dependant list (see dfs_walk). -/
def dfs_walk_deps (d : Document) : Nat → List PropRef → Option (List (List PropRef))
  | _, [] => some []
  | fuel, q :: rest =>
    match dfs_walk d fuel q with
    | none => none
    | some l =>
      match dfs_walk_deps d fuel rest with
      | none => none
      | some ls => some (l :: ls)
termination_by fuel l => (fuel, l.length + 1)

end

mutual

/-- Depth-first pre-order listing of the entity subtree rooted at an id,
written from the specification text of the path resolver: the entity
itself first, then its descendants in child-insertion order.  An id with
no entity contributes nothing.  Fuel bounds the recursion. -/
def preorder (d : Document) : Nat → Nat → Option (List Entity)
  | 0, _ => none
  | fuel + 1, eid =>
    match hmGet d.entities eid with
    | none => some []
    | some ent =>
      match preorderList d fuel ent.children_ids with
      | none => none
      | some l => some (ent :: l)
termination_by fuel _ => (fuel, 0)

/-- Concatenated pre-order listings of a list of subtrees (see preorder). -/
def preorderList (d : Document) : Nat → List Nat → Option (List Entity)
  | _, [] => some []
  | 0, _ :: _ => none
  | fuel + 1, c :: rest =>
    match preorder d (fuel + 1) c with
    | none => none
    | some l1 =>
      match preorderList d (fuel + 1) rest with
      | none => none
      | some l2 => some (l1 ++ l2)
termination_by fuel l => (fuel, l.length + 1)

end

mutual

/-- Modelled from the spec: the observed value of a stored expression.
The equality and serialization of Pon live in pon.rs, which is not under
src/; per the spec a stored resolved reference holds shared access to the
referenced property's cell and a read transparently observes that cell's
current value, so observation dereferences resolved reference nodes
through the arena, recursing structurally through composites.  Fuel
bounds reference chains. -/
def deref_pon (fuel : Nat) (d : Document) : Pon → Pon
  | .ResolvedDependencyReference cid =>
    match fuel with
    | 0 => .ResolvedDependencyReference cid
    | f + 1 => deref_pon f d (readCell d cid)
  | .TypedPon tn data => .TypedPon tn (deref_pon fuel d data)
  | .Object fields => .Object (derefFields fuel d fields)
  | .Array elems => .Array (derefList fuel d elems)
  | p => p
termination_by p => (fuel, sizeOf p)

/-- Observation of object fields (see deref_pon). -/
def derefFields (fuel : Nat) (d : Document) : List (String × Pon) → List (String × Pon)
  | [] => []
  | (k, v) :: rest => (k, deref_pon fuel d v) :: derefFields fuel d rest
termination_by l => (fuel, sizeOf l)

/-- Observation of array elements (see deref_pon). -/
def derefList (fuel : Nat) (d : Document) : List Pon → List Pon
  | [] => []
  | v :: rest => deref_pon fuel d v :: derefList fuel d rest
termination_by l => (fuel, sizeOf l)

end

/-- A property with its dependant list forgotten. -/
def Property.erase_dependants (p : Property) : Property :=
  { p with dependants := [] }

/-- An entity with every property's dependant list forgotten. -/
def Entity.erase_dependants (e : Entity) : Entity :=
  { e with properties := e.properties.map (fun kp => (kp.1, kp.2.erase_dependants)) }

/-- A document with every dependant list forgotten: two documents with
equal erasures agree on everything except dependant lists — same
entities, same tree structure, same name index, same properties, same
expression cells. -/
def Document.erase_dependants (d : Document) : Document :=
  { d with entities := d.entities.map (fun ie => (ie.1, ie.2.erase_dependants)) }

/-- The fields of an entity that entity-path resolution and child search
read: id, name, parent and children. -/
def Entity.shape (e : Entity) : Nat × Option String × Nat × List Nat :=
  (e.id, e.name, e.parent_id, e.children_ids)

/-- Two documents with the same name index and pointwise the same entity
shapes; path resolution cannot distinguish them. -/
def struct_eq (d d' : Document) : Prop :=
  d.entity_ids_by_name = d'.entity_ids_by_name ∧
    ∀ x, (hmGet d.entities x).map Entity.shape = (hmGet d'.entities x).map Entity.shape

/-- Every entity key is bounded by the id counter; this holds in every
document reachable from Document.new and is what makes freshly drawn
identifiers new. -/
def keysBounded (d : Document) : Prop :=
  ∀ x e, hmGet d.entities x = some e → x ≤ d.id_counter

/-- The keys of an association list are pairwise distinct. -/
def NoDupKeys {α β : Type} (m : List (α × β)) : Prop :=
  (m.map Prod.fst).Nodup

/-- The updated target property of a push (document.rs line 140). -/
def pushProp (prop : Property) (dep : PropRef) : Property :=
  { prop with dependants := prop.dependants ++ [dep] }

/-- The updated target entity of a push. -/
def pushEnt (ent : Entity) (key : String) (prop : Property) (dep : PropRef) : Entity :=
  { ent with properties := hmInsert ent.properties key (pushProp prop dep) }

/-- Lookup of a property record through a PropRef. -/
def propGet (d : Document) (pr : PropRef) : Option Property :=
  (hmGet d.entities pr.entity_id).bind (fun e => hmGet e.properties pr.property_key)

/-- The per-node hypothesis for resolution success: every reference
enumerated from the node resolves (in the reference document) and its
target entity exists there. -/
def RpdHyp (fuel : Nat) (d0 : Document) (e : Nat) (refs : List NamedPropRef) : Prop :=
  ∀ npr ∈ refs, ∃ pr, resolve_named_prop_ref fuel d0 e npr = some (.ok pr) ∧
    (hmGet d0.entities pr.entity_id).isSome = true

/-- First entity of a listing whose name matches, written from the
specification text (first match wins). -/
def first_name_match (ls : List Entity) (name : String) : Option Entity :=
  ls.find? (fun ent => decide (ent.name = some name))

/-- The outcome the specification prescribes for a search over a given
pre-order listing. -/
def search_spec (ls : List Entity) (name : String) : Except DocError Nat :=
  match first_name_match ls name with
  | some ent => .ok ent.id
  | none => .error .BadReference

/-- The freshly appended entity record. -/
def newEntity (i : Nat) (p : Nat) (t : String) (n : Option String) : Entity :=
  { id := i, type_name := t, properties := [], name := n, children_ids := [], parent_id := p }

/-- Fallback entity for total lookups in concrete examples. -/
def entFallback : Entity :=
  { id := 0, type_name := "", properties := [], name := none, children_ids := [], parent_id := 0 }

/-- Total entity lookup for concrete examples. -/
def entOf (d : Document) (x : Nat) : Entity := (hmGet d.entities x).getD entFallback

/-- Total projection of a set_property run (used only to name the
resulting document of a concrete run). -/
def docAfterSet (fuel : Nat) (d : Document) (entity_id : Nat) (name : String)
    (expr : Pon) : Document :=
  ((set_property fuel d entity_id name expr).getD (d, .ok [])).1

/-- A document with one root entity named tmp (id 1), as in the tests of
document.rs. -/
def docA : Document := (append_entity Document.new SENTINEL "Entity" (some "tmp")).1

/-- docA with property a assigned Integer 5. -/
def docB : Document := docAfterSet 9 docA 1 "a" (Pon.Integer 5)

/-- docA with x assigned the float literal 5.0 (the test fixture of
test_property_reference_update). -/
def docC1x : Document := docAfterSet 9 docA 1 "x" (Pon.Float "5.0")

/-- docC1x with y assigned a reference to (this, x). -/
def docC1y : Document :=
  docAfterSet 9 docC1x 1 "y" (Pon.DependencyReference ⟨.this, "x"⟩)

/-- docC1y after reassigning x to Integer 9. -/
def docC1z : Document := docAfterSet 9 docC1y 1 "x" (Pon.Integer 9)

/-- docB after the failing assignment of y to an array referencing the
assigned a and the unassigned b. -/
def docC2err : Document :=
  docAfterSet 9 docB 1 "y"
    (Pon.Array [Pon.DependencyReference ⟨.this, "a"⟩, Pon.DependencyReference ⟨.this, "b"⟩])

/-- docB with property b assigned a reference to (this, a). -/
def docC4 : Document := docAfterSet 9 docB 1 "b" (Pon.DependencyReference ⟨.this, "a"⟩)

/-- docC4 after reassigning a, which cascades into b. -/
def docC4b : Document := docAfterSet 9 docC4 1 "a" (Pon.Integer 7)

/-- A four-entity tree: root 1 with children 2 (named a) and 3 (named b),
and 4 (also named b) below 2.  Depth-first pre-order from the root visits
1, 2, 4, 3, so a search for b finds 4 before 3. -/
def docTree : Document :=
  (runAppends Document.new
    [(SENTINEL, "Root", none), (1, "A", some "a"), (1, "B", some "b"), (2, "C", some "b")]).1

/-- The pre-order listing of docTree from its root. -/
def docTreeListing : List Entity := (preorder docTree 9 1).getD []

/-- The property record after installation: same dependants, new cell. -/
def installedProp (p : Property) (cid : Nat) : Property :=
  { p with expression := cid }

/-- The entity record after installation over an existing property. -/
def installedEnt (ent : Entity) (name : String) (p : Property) (cid : Nat) : Entity :=
  { ent with properties := hmInsert ent.properties name (installedProp p cid) }

section AssocListLemmas

variable {α β : Type} [DecidableEq α]

theorem hmGet_hmInsert_same (m : List (α × β)) (k : α) (v : β) :
    hmGet (hmInsert m k v) k = some v := by
  induction m with
  | nil => simp [hmGet, hmInsert]
  | cons kv rest ih =>
    obtain ⟨k', v'⟩ := kv
    by_cases h : k' = k
    · simp [hmGet, hmInsert, h]
    · simp [hmGet, hmInsert, h, ih]

theorem hmGet_hmInsert_ne (m : List (α × β)) (k k2 : α) (v : β) (h : k2 ≠ k) :
    hmGet (hmInsert m k v) k2 = hmGet m k2 := by
  have h' : ¬ k = k2 := fun h2 => h h2.symm
  induction m with
  | nil => simp [hmGet, hmInsert, h']
  | cons kv rest ih =>
    obtain ⟨k', v'⟩ := kv
    by_cases hk : k' = k
    · subst hk
      simp [hmGet, hmInsert, h']
    · by_cases hk2 : k' = k2
      · subst hk2
        simp [hmGet, hmInsert, hk]
      · simp [hmGet, hmInsert, hk, hk2, ih]

theorem hmInsert_eq_of_get (m : List (α × β)) (k : α) (v : β)
    (h : hmGet m k = some v) : hmInsert m k v = m := by
  induction m with
  | nil => simp [hmGet] at h
  | cons kv rest ih =>
    obtain ⟨k', v'⟩ := kv
    by_cases hk : k' = k
    · simp [hmGet, hk] at h
      simp [hmInsert, hk, h]
    · simp [hmGet, hk] at h
      simp [hmInsert, hk, ih h]

theorem hmGet_map_pair {γ : Type} (m : List (α × β)) (f : β → γ) (k : α) :
    hmGet (m.map (fun kv => (kv.1, f kv.2))) k = (hmGet m k).map f := by
  induction m with
  | nil => simp [hmGet]
  | cons kv rest ih =>
    obtain ⟨k', v'⟩ := kv
    by_cases hk : k' = k <;> simp [hmGet, hk, ih]

theorem hmInsert_map_pair {γ : Type} (m : List (α × β)) (f : β → γ) (k : α) (v : β) :
    (hmInsert m k v).map (fun kv => (kv.1, f kv.2)) =
      hmInsert (m.map (fun kv => (kv.1, f kv.2))) k (f v) := by
  induction m with
  | nil => simp [hmInsert]
  | cons kv rest ih =>
    obtain ⟨k', v'⟩ := kv
    by_cases hk : k' = k <;> simp [hmInsert, hk, ih]

theorem keys_hmInsert_get_some (m : List (α × β)) (k : α) (v w : β)
    (h : hmGet m k = some w) : (hmInsert m k v).map Prod.fst = m.map Prod.fst := by
  induction m with
  | nil => simp [hmGet] at h
  | cons kv rest ih =>
    obtain ⟨k', v'⟩ := kv
    by_cases hk : k' = k
    · simp [hmInsert, hk]
    · simp [hmGet, hk] at h
      simp [hmInsert, hk, ih h]

theorem keys_hmInsert_get_none (m : List (α × β)) (k : α) (v : β)
    (h : hmGet m k = none) : (hmInsert m k v).map Prod.fst = m.map Prod.fst ++ [k] := by
  induction m with
  | nil => simp [hmInsert]
  | cons kv rest ih =>
    obtain ⟨k', v'⟩ := kv
    by_cases hk : k' = k
    · simp [hmGet, hk] at h
    · simp [hmGet, hk] at h
      simp [hmInsert, hk, ih h]

theorem not_mem_keys_of_hmGet_none (m : List (α × β)) (k : α)
    (h : hmGet m k = none) : k ∉ m.map Prod.fst := by
  induction m with
  | nil => simp
  | cons kv rest ih =>
    obtain ⟨k', v'⟩ := kv
    by_cases hk : k' = k
    · simp [hmGet, hk] at h
    · simp [hmGet, hk] at h
      intro hmem
      simp only [List.map_cons, List.mem_cons] at hmem
      rcases hmem with h2 | h2
      · exact hk h2.symm
      · exact (ih h) h2

theorem hmInsert_nodupKeys (m : List (α × β)) (k : α) (v : β)
    (h : NoDupKeys m) : NoDupKeys (hmInsert m k v) := by
  unfold NoDupKeys at h ⊢
  match hw : hmGet m k with
  | some w =>
    rw [keys_hmInsert_get_some m k v w hw]
    exact h
  | none =>
    rw [keys_hmInsert_get_none m k v hw]
    rw [List.nodup_append]
    refine ⟨h, List.nodup_singleton k, ?_⟩
    intro a ha hb
    rw [List.mem_singleton] at hb
    subst hb
    exact not_mem_keys_of_hmGet_none m a hw ha

end AssocListLemmas

theorem push_dependant_ok (d : Document) (t dep : PropRef) (ent : Entity) (prop : Property)
    (h1 : hmGet d.entities t.entity_id = some ent)
    (h2 : hmGet ent.properties t.property_key = some prop) :
    push_dependant d t dep =
      ({ d with entities := hmInsert d.entities t.entity_id (pushEnt ent t.property_key prop dep) },
        .ok ()) := by
  unfold push_dependant
  simp only [h1, h2]
  rfl

theorem push_dependant_err_ent (d : Document) (t dep : PropRef)
    (h1 : hmGet d.entities t.entity_id = none) :
    push_dependant d t dep = (d, .error .BadReference) := by
  unfold push_dependant
  simp only [h1]

theorem push_dependant_err_prop (d : Document) (t dep : PropRef) (ent : Entity)
    (h1 : hmGet d.entities t.entity_id = some ent)
    (h2 : hmGet ent.properties t.property_key = none) :
    push_dependant d t dep = (d, .error .BadReference) := by
  unfold push_dependant
  simp only [h1, h2]

/-- Pushing a dependant changes nothing but a dependant list. -/
theorem push_dependant_erase (d : Document) (t dep : PropRef) :
    (push_dependant d t dep).1.erase_dependants = d.erase_dependants := by
  match h1 : hmGet d.entities t.entity_id with
  | none => rw [push_dependant_err_ent d t dep h1]
  | some ent =>
    match h2 : hmGet ent.properties t.property_key with
    | none => rw [push_dependant_err_prop d t dep ent h1 h2]
    | some prop =>
      rw [push_dependant_ok d t dep ent prop h1 h2]
      unfold Document.erase_dependants
      congr 1
      have hent : Entity.erase_dependants (pushEnt ent t.property_key prop dep) =
          Entity.erase_dependants ent := by
        unfold Entity.erase_dependants pushEnt
        congr 1
        rw [hmInsert_map_pair]
        apply hmInsert_eq_of_get
        rw [hmGet_map_pair, h2]
        rfl
      rw [hmInsert_map_pair, hent]
      apply hmInsert_eq_of_get
      rw [hmGet_map_pair, h1]
      rfl

/-- The whole registration loop changes nothing but dependant lists,
whether it succeeds or aborts half way. -/
theorem register_dependants_erase (deps : List PropRef) : ∀ (d : Document) (dep : PropRef),
    (register_dependants d deps dep).1.erase_dependants = d.erase_dependants := by
  induction deps with
  | nil => intro d dep; rfl
  | cons pr rest ih =>
    intro d dep
    unfold register_dependants
    have hp := push_dependant_erase d pr dep
    match h : push_dependant d pr dep with
    | (d1, .ok u) =>
      rw [h] at hp
      simpa [ih d1 dep] using hp
    | (d1, .error e) =>
      rw [h] at hp
      simpa using hp

theorem erase_eq_entities_get {d1 d2 : Document}
    (h : d1.erase_dependants = d2.erase_dependants) (x : Nat) :
    (hmGet d1.entities x).map Entity.erase_dependants =
      (hmGet d2.entities x).map Entity.erase_dependants := by
  have he := congrArg Document.entities h
  have g1 := hmGet_map_pair d1.entities Entity.erase_dependants x
  have g2 := hmGet_map_pair d2.entities Entity.erase_dependants x
  rw [← g1, ← g2]
  exact congrArg (fun m => hmGet m x) he

theorem erase_eq_prop_get {d1 d2 : Document}
    (h : d1.erase_dependants = d2.erase_dependants) (x : Nat) (k : String) :
    ((hmGet d1.entities x).bind (fun e => hmGet e.properties k)).map Property.erase_dependants =
      ((hmGet d2.entities x).bind (fun e => hmGet e.properties k)).map Property.erase_dependants := by
  have he := erase_eq_entities_get h x
  match g1 : hmGet d1.entities x, g2 : hmGet d2.entities x with
  | none, none => rfl
  | none, some e2 => rw [g1, g2] at he; simp at he
  | some e1, none => rw [g1, g2] at he; simp at he
  | some e1, some e2 =>
    rw [g1, g2] at he
    simp only [Option.map] at he
    have he2 := Option.some.inj he
    have hp : e1.properties.map (fun kp => (kp.1, Property.erase_dependants kp.2)) =
        e2.properties.map (fun kp => (kp.1, Property.erase_dependants kp.2)) := by
      have h3 := congrArg Entity.properties he2
      simpa [Entity.erase_dependants] using h3
    show (hmGet e1.properties k).map Property.erase_dependants =
      (hmGet e2.properties k).map Property.erase_dependants
    have p1 := hmGet_map_pair e1.properties Property.erase_dependants k
    have p2 := hmGet_map_pair e2.properties Property.erase_dependants k
    rw [← p1, ← p2]
    exact congrArg (fun m => hmGet m k) hp

theorem erase_eq_cells {d1 d2 : Document}
    (h : d1.erase_dependants = d2.erase_dependants) : d1.cells = d2.cells := by
  have h2 := congrArg Document.cells h
  exact h2

theorem erase_eq_name_index {d1 d2 : Document}
    (h : d1.erase_dependants = d2.erase_dependants) :
    d1.entity_ids_by_name = d2.entity_ids_by_name := by
  have h2 := congrArg Document.entity_ids_by_name h
  exact h2

theorem Entity.shape_erase (e : Entity) :
    Entity.shape (Entity.erase_dependants e) = Entity.shape e := rfl

theorem erase_eq_struct_eq {d1 d2 : Document}
    (h : d1.erase_dependants = d2.erase_dependants) : struct_eq d1 d2 := by
  refine ⟨erase_eq_name_index h, fun x => ?_⟩
  have he := erase_eq_entities_get h x
  have e1 : (hmGet d1.entities x).map Entity.shape =
      ((hmGet d1.entities x).map Entity.erase_dependants).map Entity.shape := by
    rw [Option.map_map]
    rfl
  have e2 : (hmGet d2.entities x).map Entity.shape =
      ((hmGet d2.entities x).map Entity.erase_dependants).map Entity.shape := by
    rw [Option.map_map]
    rfl
  rw [e1, e2, he]

theorem struct_eq_refl (d : Document) : struct_eq d d := ⟨rfl, fun _ => rfl⟩

theorem struct_eq_trans {a b c : Document} (h1 : struct_eq a b) (h2 : struct_eq b c) :
    struct_eq a c :=
  ⟨h1.1.trans h2.1, fun x => (h1.2 x).trans (h2.2 x)⟩

theorem struct_eq_symm {a b : Document} (h : struct_eq a b) : struct_eq b a :=
  ⟨h.1.symm, fun x => (h.2 x).symm⟩

theorem erase_eq_propGet {d1 d2 : Document}
    (h : d1.erase_dependants = d2.erase_dependants) (pr : PropRef) :
    (propGet d1 pr).map Property.erase_dependants =
      (propGet d2 pr).map Property.erase_dependants :=
  erase_eq_prop_get h pr.entity_id pr.property_key

theorem erase_eq_propGet_isSome {d1 d2 : Document}
    (h : d1.erase_dependants = d2.erase_dependants) (pr : PropRef) :
    (propGet d1 pr).isSome = (propGet d2 pr).isSome := by
  have hp := erase_eq_propGet h pr
  match g1 : propGet d1 pr, g2 : propGet d2 pr with
  | none, none => rfl
  | none, some p2 => rw [g1, g2] at hp; simp at hp
  | some p1, none => rw [g1, g2] at hp; simp at hp
  | some p1, some p2 => rfl

theorem erase_eq_propGet_none {d1 d2 : Document}
    (h : d1.erase_dependants = d2.erase_dependants) (pr : PropRef)
    (hn : propGet d1 pr = none) : propGet d2 pr = none := by
  have hp := erase_eq_propGet_isSome h pr
  rw [hn] at hp
  match g2 : propGet d2 pr with
  | none => rfl
  | some p2 => rw [g2] at hp; simp at hp

theorem struct_eq_entities_isSome {d1 d2 : Document} (h : struct_eq d1 d2) (x : Nat) :
    (hmGet d1.entities x).isSome = (hmGet d2.entities x).isSome := by
  have hx := h.2 x
  match g1 : hmGet d1.entities x, g2 : hmGet d2.entities x with
  | none, none => rfl
  | none, some e2 => rw [g1, g2] at hx; simp at hx
  | some e1, none => rw [g1, g2] at hx; simp at hx
  | some e1, some e2 => rfl

theorem Entity.shape_inj {e1 e2 : Entity} (h : Entity.shape e1 = Entity.shape e2) :
    e1.id = e2.id ∧ e1.name = e2.name ∧ e1.parent_id = e2.parent_id ∧
      e1.children_ids = e2.children_ids := by
  unfold Entity.shape at h
  simp only [Prod.mk.injEq] at h
  exact h

/-- Child search reads only the name index and the entity shapes, so it
cannot distinguish documents that agree on them. -/
theorem search_children_struct_eq : ∀ fuel,
    (∀ (d1 d2 : Document), struct_eq d1 d2 → ∀ eid name,
      search_children fuel d1 eid name = search_children fuel d2 eid name) ∧
    (∀ (d1 d2 : Document), struct_eq d1 d2 → ∀ cs name,
      search_children_list fuel d1 cs name = search_children_list fuel d2 cs name) := by
  intro fuel
  induction fuel using Nat.strong_induction_on with
  | _ fuel ih =>
    constructor
    · intro d1 d2 h eid name
      cases fuel with
      | zero => simp only [search_children]
      | succ f =>
        have hx := h.2 eid
        simp only [search_children]
        match g1 : hmGet d1.entities eid, g2 : hmGet d2.entities eid with
        | none, none => simp only [g1, g2]
        | none, some e2 => rw [g1, g2] at hx; simp at hx
        | some e1, none => rw [g1, g2] at hx; simp at hx
        | some e1, some e2 =>
          rw [g1, g2] at hx
          simp only [Option.map] at hx
          obtain ⟨hid, hname, hpar, hch⟩ := Entity.shape_inj (Option.some.inj hx)
          simp only [g1, g2]
          rw [hname, hid, hch]
          by_cases hc : e2.name = some name
          · simp [hc]
          · simp only [hc, if_false]
            exact (ih f (Nat.lt_succ_self f)).2 d1 d2 h e2.children_ids name
    · intro d1 d2 h cs name
      induction cs with
      | nil => cases fuel <;> simp only [search_children_list]
      | cons c rest ihl =>
        cases fuel with
        | zero => simp only [search_children_list]
        | succ f =>
          simp only [search_children_list]
          rw [(ih f (Nat.lt_succ_self f)).1 d1 d2 h c name]
          match g : search_children f d2 c name with
          | none => rfl
          | some (.ok id) => rfl
          | some (.error e) => exact ihl

/-- Path resolution cannot distinguish documents that agree on the name
index and the entity shapes. -/
theorem resolve_entity_path_struct_eq {d1 d2 : Document} (h : struct_eq d1 d2)
    (fuel : Nat) (start : Nat) : ∀ path,
    resolve_entity_path fuel d1 start path = resolve_entity_path fuel d2 start path := by
  intro path
  induction path with
  | this => rfl
  | parent =>
    have hx := h.2 start
    simp only [resolve_entity_path]
    match g1 : hmGet d1.entities start, g2 : hmGet d2.entities start with
    | none, none => rfl
    | none, some e2 => rw [g1, g2] at hx; simp at hx
    | some e1, none => rw [g1, g2] at hx; simp at hx
    | some e1, some e2 =>
      rw [g1, g2] at hx
      simp only [Option.map] at hx
      obtain ⟨_, _, hpar, _⟩ := Entity.shape_inj (Option.some.inj hx)
      simp only [g1, g2]
      rw [hpar]
  | named n =>
    simp only [resolve_entity_path]
    rw [h.1]
  | search base childName ihb =>
    simp only [resolve_entity_path]
    rw [ihb]
    match g : resolve_entity_path fuel d2 start base with
    | none => rfl
    | some (.error e) => rfl
    | some (.ok ent) => exact (search_children_struct_eq fuel).1 d1 d2 h ent childName

theorem resolve_named_prop_ref_struct_eq {d1 d2 : Document} (h : struct_eq d1 d2)
    (fuel : Nat) (start : Nat) (npr : NamedPropRef) :
    resolve_named_prop_ref fuel d1 start npr = resolve_named_prop_ref fuel d2 start npr := by
  unfold resolve_named_prop_ref
  rw [resolve_entity_path_struct_eq h fuel start npr.entity_path]

theorem push_dependant_none (d : Document) (pr dep : PropRef)
    (h : propGet d pr = none) : push_dependant d pr dep = (d, .error .BadReference) := by
  unfold propGet at h
  match g1 : hmGet d.entities pr.entity_id with
  | none => exact push_dependant_err_ent d pr dep g1
  | some ent =>
    rw [g1] at h
    simp only [Option.some_bind] at h
    exact push_dependant_err_prop d pr dep ent g1 h

theorem push_dependant_some (d : Document) (pr dep : PropRef) (prop : Property)
    (h : propGet d pr = some prop) :
    ∃ ent, hmGet d.entities pr.entity_id = some ent ∧
      hmGet ent.properties pr.property_key = some prop ∧
      push_dependant d pr dep =
        ({ d with entities := hmInsert d.entities pr.entity_id (pushEnt ent pr.property_key prop dep) },
          .ok ()) := by
  unfold propGet at h
  match g1 : hmGet d.entities pr.entity_id with
  | none => rw [g1] at h; simp at h
  | some ent =>
    rw [g1] at h
    simp only [Option.some_bind] at h
    exact ⟨ent, rfl, h, push_dependant_ok d pr dep ent prop g1 h⟩

/-- What a successful push does to any property lookup: the target gains
exactly the pushed dependant, everything else is untouched. -/
theorem push_propGet (d : Document) (pr dep : PropRef) (prop : Property)
    (h : propGet d pr = some prop) (q : PropRef) :
    propGet (push_dependant d pr dep).1 q =
      if q = pr then some (pushProp prop dep) else propGet d q := by
  obtain ⟨ent, g1, g2, hpush⟩ := push_dependant_some d pr dep prop h
  rw [hpush]
  by_cases hq : q = pr
  · subst hq
    rw [if_pos rfl]
    unfold propGet
    dsimp only
    rw [hmGet_hmInsert_same]
    rw [Option.some_bind]
    unfold pushEnt
    dsimp only
    rw [hmGet_hmInsert_same]
  · rw [if_neg hq]
    unfold propGet
    dsimp only
    by_cases he : q.entity_id = pr.entity_id
    · rw [he, hmGet_hmInsert_same, g1]
      rw [Option.some_bind, Option.some_bind]
      have hk : q.property_key ≠ pr.property_key := by
        intro hkk
        exact hq (by cases q; cases pr; simp_all)
      unfold pushEnt
      dsimp only
      rw [hmGet_hmInsert_ne ent.properties pr.property_key q.property_key _ hk]
    · rw [hmGet_hmInsert_ne d.entities pr.entity_id q.entity_id _ he]

theorem register_err_bad (deps : List PropRef) : ∀ (d : Document) (dep : PropRef) d1 e,
    register_dependants d deps dep = (d1, .error e) → e = .BadReference := by
  induction deps with
  | nil => intro d dep d1 e h; simp [register_dependants] at h
  | cons pr rest ih =>
    intro d dep d1 e h
    unfold register_dependants at h
    match g : push_dependant d pr dep with
    | (dx, .ok u) =>
      rw [g] at h
      exact ih dx dep d1 e h
    | (dx, .error e2) =>
      rw [g] at h
      have he2 : e2 = .BadReference := by
        unfold push_dependant at g
        match g1 : hmGet d.entities pr.entity_id with
        | none =>
          rw [g1] at g
          simp at g
          exact g.2.symm
        | some ent =>
          rw [g1] at g
          simp only at g
          match g2 : hmGet ent.properties pr.property_key with
          | none =>
            rw [g2] at g
            simp at g
            exact g.2.symm
          | some prop =>
            rw [g2] at g
            simp at g
      simp at h
      rw [← h.2, he2]

theorem register_ok_propGet_isSome (deps : List PropRef) : ∀ (d : Document) (dep : PropRef) d1 u,
    register_dependants d deps dep = (d1, .ok u) →
    ∀ pr ∈ deps, (propGet d pr).isSome := by
  induction deps with
  | nil => intro d dep d1 u h pr hpr; simp at hpr
  | cons pr0 rest ih =>
    intro d dep d1 u h pr hpr
    unfold register_dependants at h
    match g : push_dependant d pr0 dep with
    | (dx, .error e2) => rw [g] at h; simp at h
    | (dx, .ok u2) =>
      rw [g] at h
      rcases List.mem_cons.mp hpr with h2 | h2
      · subst h2
        match gp : propGet d pr with
        | some prop => rfl
        | none =>
          rw [push_dependant_none d pr dep gp] at g
          simp at g
      · have hx := ih dx dep d1 u h pr h2
        have her : dx.erase_dependants = d.erase_dependants := by
          have := push_dependant_erase d pr0 dep
          rw [g] at this
          exact this
        rw [← erase_eq_propGet_isSome her pr]
        exact hx

theorem register_propGet_nonmember (deps : List PropRef) : ∀ (d : Document) (dep : PropRef)
    (q : PropRef), q ∉ deps →
    propGet (register_dependants d deps dep).1 q = propGet d q := by
  induction deps with
  | nil => intro d dep q hq; rfl
  | cons pr0 rest ih =>
    intro d dep q hq
    have hq0 : q ≠ pr0 := fun h2 => hq (h2 ▸ List.mem_cons_self pr0 rest)
    have hqr : q ∉ rest := fun h2 => hq (List.mem_cons_of_mem pr0 h2)
    unfold register_dependants
    match g : push_dependant d pr0 dep with
    | (dx, .error e2) =>
      simp only
      have hsame : propGet dx q = propGet d q := by
        match gp : propGet d pr0 with
        | some prop =>
          have := push_propGet d pr0 dep prop gp q
          rw [g] at this
          simpa [if_neg hq0] using this
        | none =>
          rw [push_dependant_none d pr0 dep gp] at g
          cases g
          rfl
      exact hsame
    | (dx, .ok u2) =>
      simp only
      have hsame : propGet dx q = propGet d q := by
        match gp : propGet d pr0 with
        | some prop =>
          have := push_propGet d pr0 dep prop gp q
          rw [g] at this
          simpa [if_neg hq0] using this
        | none =>
          rw [push_dependant_none d pr0 dep gp] at g
          simp at g
      rw [ih dx dep q hqr, hsame]

theorem register_propGet_mono (deps : List PropRef) : ∀ (d : Document) (dep : PropRef)
    (q : PropRef) (p : Property), propGet d q = some p →
    ∃ p2, propGet (register_dependants d deps dep).1 q = some p2 ∧
      ∀ z ∈ p.dependants, z ∈ p2.dependants := by
  induction deps with
  | nil => intro d dep q p h; exact ⟨p, h, fun z hz => hz⟩
  | cons pr0 rest ih =>
    intro d dep q p h
    unfold register_dependants
    match g : push_dependant d pr0 dep with
    | (dx, .error e2) =>
      simp only
      match gp : propGet d pr0 with
      | some prop =>
        have := push_propGet d pr0 dep prop gp q
        rw [g] at this
        by_cases hq : q = pr0
        · subst hq
          rw [h] at gp
          refine ⟨pushProp prop dep, by simpa [if_pos rfl] using this, ?_⟩
          intro z hz
          unfold pushProp
          simp only
          cases Option.some.inj gp
          exact List.mem_append_left _ hz
        · have h3 : propGet dx q = propGet d q := by simpa [if_neg hq] using this
          exact ⟨p, by rw [h3]; exact h, fun z hz => hz⟩
      | none =>
        rw [push_dependant_none d pr0 dep gp] at g
        cases g
        exact ⟨p, h, fun z hz => hz⟩
    | (dx, .ok u2) =>
      simp only
      match gp : propGet d pr0 with
      | some prop =>
        have hpg := push_propGet d pr0 dep prop gp q
        rw [g] at hpg
        by_cases hq : q = pr0
        · subst hq
          rw [h] at gp
          cases Option.some.inj gp
          have hsome : propGet dx q = some (pushProp p dep) := by simpa [if_pos rfl] using hpg
          obtain ⟨p2, hp2, hmono⟩ := ih dx dep q (pushProp p dep) hsome
          refine ⟨p2, hp2, fun z hz => hmono z ?_⟩
          unfold pushProp
          simp only
          exact List.mem_append_left _ hz
        · have h3 : propGet dx q = propGet d q := by simpa [if_neg hq] using hpg
          have hsome : propGet dx q = some p := by rw [h3]; exact h
          exact ih dx dep q p hsome
      | none =>
        rw [push_dependant_none d pr0 dep gp] at g
        simp at g

theorem register_pushes_mem (deps : List PropRef) : ∀ (d : Document) (dep : PropRef) d1 u,
    register_dependants d deps dep = (d1, .ok u) →
    ∀ pr ∈ deps, ∃ p2, propGet d1 pr = some p2 ∧ dep ∈ p2.dependants := by
  induction deps with
  | nil => intro d dep d1 u h pr hpr; simp at hpr
  | cons pr0 rest ih =>
    intro d dep d1 u h pr hpr
    unfold register_dependants at h
    match g : push_dependant d pr0 dep with
    | (dx, .error e2) => rw [g] at h; simp at h
    | (dx, .ok u2) =>
      rw [g] at h
      rcases List.mem_cons.mp hpr with h2 | h2
      · subst h2
        match gp : propGet d pr with
        | none =>
          rw [push_dependant_none d pr dep gp] at g
          simp at g
        | some prop =>
          have hpg0 := push_propGet d pr dep prop gp pr
          rw [g] at hpg0
          have hpg : propGet dx pr = some (pushProp prop dep) := by simpa using hpg0
          have h2 : register_dependants dx rest dep = (d1, .ok u) := h
          have hd1 : (register_dependants dx rest dep).1 = d1 := by rw [h2]
          obtain ⟨p2, hp2, hmono⟩ := register_propGet_mono rest dx dep pr (pushProp prop dep) hpg
          rw [hd1] at hp2
          refine ⟨p2, hp2, hmono dep ?_⟩
          unfold pushProp
          simp only
          exact List.mem_append_right _ (List.mem_singleton_self dep)
      · exact ih dx dep d1 u h pr h2

theorem register_err_of_missing (deps : List PropRef) : ∀ (d : Document) (dep : PropRef),
    (∃ pr ∈ deps, propGet d pr = none) →
    ∃ d1, register_dependants d deps dep = (d1, .error .BadReference) := by
  induction deps with
  | nil => intro d dep h; simp at h
  | cons pr0 rest ih =>
    intro d dep h
    unfold register_dependants
    match gp : propGet d pr0 with
    | none =>
      rw [push_dependant_none d pr0 dep gp]
      exact ⟨d, rfl⟩
    | some prop =>
      obtain ⟨ent, g1, g2, hpush⟩ := push_dependant_some d pr0 dep prop gp
      rw [hpush]
      simp only
      obtain ⟨pr, hpr, hnone⟩ := h
      rcases List.mem_cons.mp hpr with h2 | h2
      · subst h2
        rw [hnone] at gp
        cases gp
      · set dx : Document := { d with entities := hmInsert d.entities pr0.entity_id (pushEnt ent pr0.property_key prop dep) } with hdx
        have her : dx.erase_dependants = d.erase_dependants := by
          have := push_dependant_erase d pr0 dep
          rw [hpush] at this
          exact this
        have hnone2 : propGet dx pr = none :=
          erase_eq_propGet_none (by rw [her]) pr hnone
        exact ih dx dep ⟨pr, h2, hnone2⟩

theorem resolve_refs_mem (fuel : Nat) (d : Document) (start : Nat) :
    ∀ (refs : List NamedPropRef) (prs : List PropRef),
    resolve_refs fuel d start refs = some (.ok prs) →
    ∀ npr ∈ refs, ∃ pr, resolve_named_prop_ref fuel d start npr = some (.ok pr) ∧ pr ∈ prs := by
  intro refs
  induction refs with
  | nil => intro prs h npr hnpr; simp at hnpr
  | cons npr0 rest ih =>
    intro prs h npr hnpr
    unfold resolve_refs at h
    match g0 : resolve_named_prop_ref fuel d start npr0 with
    | none => rw [g0] at h; simp at h
    | some (.error e) => rw [g0] at h; simp at h
    | some (.ok pr0) =>
      rw [g0] at h
      simp only at h
      match g1 : resolve_refs fuel d start rest with
      | none => rw [g1] at h; simp at h
      | some (.error e) => rw [g1] at h; simp at h
      | some (.ok prs0) =>
        rw [g1] at h
        simp only [Option.some.injEq, Except.ok.injEq] at h
        subst h
        rcases List.mem_cons.mp hnpr with h2 | h2
        · subst h2
          exact ⟨pr0, g0, List.mem_cons_self pr0 prs0⟩
        · obtain ⟨pr, hres, hmem⟩ := ih prs0 g1 npr h2
          exact ⟨pr, hres, List.mem_cons_of_mem pr0 hmem⟩

theorem propGet_isSome_entity (d : Document) (pr : PropRef)
    (h : (propGet d pr).isSome = true) : (hmGet d.entities pr.entity_id).isSome = true := by
  unfold propGet at h
  match g : hmGet d.entities pr.entity_id with
  | none => rw [g] at h; simp at h
  | some ent => rfl

theorem get_or_create_shape (ent : Entity) (cells : List Pon) (key : String) :
    Entity.shape (ent.get_or_create_property cells key).1 = Entity.shape ent := by
  unfold Entity.get_or_create_property
  match gp : hmGet ent.properties key with
  | some p => rfl
  | none => rfl

/-- Reinserting an entity with an unchanged shape (and any cells) leaves
the structural view of the document unchanged. -/
theorem hmInsert_shape_struct_eq (d : Document) (x : Nat) (ent ent2 : Entity)
    (cells2 : List Pon) (hg : hmGet d.entities x = some ent)
    (hs : Entity.shape ent2 = Entity.shape ent) :
    struct_eq { d with entities := hmInsert d.entities x ent2, cells := cells2 } d := by
  refine ⟨rfl, fun y => ?_⟩
  dsimp only
  by_cases hy : y = x
  · subst hy
    rw [hmGet_hmInsert_same, hg]
    simp [hs]
  · rw [hmGet_hmInsert_ne d.entities x y ent2 hy]

theorem RpdHyp_append_left {fuel d0 e} {a b : List NamedPropRef}
    (h : RpdHyp fuel d0 e (a ++ b)) : RpdHyp fuel d0 e a :=
  fun npr hm => h npr (List.mem_append_left b hm)

theorem RpdHyp_append_right {fuel d0 e} {a b : List NamedPropRef}
    (h : RpdHyp fuel d0 e (a ++ b)) : RpdHyp fuel d0 e b :=
  fun npr hm => h npr (List.mem_append_right a hm)

/-- Resolution succeeds on every document structurally equal to the
reference document, provided every enumerated reference resolves there
and its entity exists; the result is again structurally equal (the only
mutations are placeholder properties and fresh cells).  Proved for nodes,
object field lists and array element lists simultaneously, by strong
induction on size. -/
theorem rpd_ok_aux (fuel : Nat) (d0 : Document) (e : Nat) : ∀ (n : Nat),
    (∀ node : Pon, sizeOf node < n → ∀ dc, struct_eq dc d0 →
      RpdHyp fuel d0 e node.get_dependency_references →
      ∃ d2 r, resolve_pon_dependencies fuel dc e node = some (d2, .ok r) ∧ struct_eq d2 d0) ∧
    (∀ fs : List (String × Pon), sizeOf fs < n → ∀ dc, struct_eq dc d0 →
      RpdHyp fuel d0 e (gdrFields fs) →
      ∃ d2 rs, rpdFields fuel dc e fs = some (d2, .ok rs) ∧ struct_eq d2 d0) ∧
    (∀ l : List Pon, sizeOf l < n → ∀ dc, struct_eq dc d0 →
      RpdHyp fuel d0 e (gdrList l) →
      ∃ d2 rs, rpdList fuel dc e l = some (d2, .ok rs) ∧ struct_eq d2 d0) := by
  intro n
  induction n with
  | zero => exact ⟨fun _ h => absurd h (Nat.not_lt_zero _), fun _ h => absurd h (Nat.not_lt_zero _),
      fun _ h => absurd h (Nat.not_lt_zero _)⟩
  | succ n ihn =>
    refine ⟨?_, ?_, ?_⟩
    · intro node hsz dc hstruct hhyp
      match node with
      | .Nil => exact ⟨dc, .Nil, rfl, hstruct⟩
      | .Integer m => exact ⟨dc, .Integer m, rfl, hstruct⟩
      | .Float r => exact ⟨dc, .Float r, rfl, hstruct⟩
      | .Str str => exact ⟨dc, .Str str, rfl, hstruct⟩
      | .ResolvedDependencyReference c => exact ⟨dc, .ResolvedDependencyReference c, rfl, hstruct⟩
      | .TypedPon tn data =>
        have hd : sizeOf data < n := by
          have := hsz
          simp [Pon.TypedPon.sizeOf_spec] at this
          omega
        have hhyp2 : RpdHyp fuel d0 e data.get_dependency_references := by
          have : Pon.get_dependency_references (.TypedPon tn data) =
            data.get_dependency_references := rfl
          rw [this] at hhyp
          exact hhyp
        obtain ⟨d2, r, hres, hs2⟩ := (ihn.1) data hd dc hstruct hhyp2
        refine ⟨d2, .TypedPon tn r, ?_, hs2⟩
        simp only [resolve_pon_dependencies, hres]
      | .DependencyReference npr =>
        obtain ⟨pr, hres0, hent0⟩ := hhyp npr (by
          have : Pon.get_dependency_references (.DependencyReference npr) = [npr] := rfl
          rw [this]
          exact List.mem_singleton_self npr)
        have hres : resolve_named_prop_ref fuel dc e npr = some (.ok pr) := by
          rw [resolve_named_prop_ref_struct_eq hstruct fuel e npr]
          rw [← resolve_named_prop_ref_struct_eq (struct_eq_refl d0) fuel e npr]
          exact hres0
        have hent : (hmGet dc.entities pr.entity_id).isSome = true := by
          rw [struct_eq_entities_isSome hstruct pr.entity_id]
          exact hent0
        match gent : hmGet dc.entities pr.entity_id with
        | none => rw [gent] at hent; simp at hent
        | some ent =>
          match ggc : ent.get_or_create_property dc.cells pr.property_key with
          | (ent2, cells2, cid) =>
            have hshape : Entity.shape ent2 = Entity.shape ent := by
              have := get_or_create_shape ent dc.cells pr.property_key
              rw [ggc] at this
              exact this
            refine ⟨{ dc with entities := hmInsert dc.entities pr.entity_id ent2, cells := cells2 },
              .ResolvedDependencyReference cid, ?_, ?_⟩
            · simp only [resolve_pon_dependencies, hres, gent, ggc]
            · exact struct_eq_trans
                (hmInsert_shape_struct_eq dc pr.entity_id ent ent2 cells2 gent hshape) hstruct
      | .Object fields =>
        have hd : sizeOf fields < n := by
          have := hsz
          simp [Pon.Object.sizeOf_spec] at this
          omega
        have hhyp2 : RpdHyp fuel d0 e (gdrFields fields) := by
          have : Pon.get_dependency_references (.Object fields) = gdrFields fields := rfl
          rw [this] at hhyp
          exact hhyp
        obtain ⟨d2, rs, hres, hs2⟩ := (ihn.2.1) fields hd dc hstruct hhyp2
        refine ⟨d2, .Object rs, ?_, hs2⟩
        simp only [resolve_pon_dependencies, hres]
      | .Array elems =>
        have hd : sizeOf elems < n := by
          have := hsz
          simp [Pon.Array.sizeOf_spec] at this
          omega
        have hhyp2 : RpdHyp fuel d0 e (gdrList elems) := by
          have : Pon.get_dependency_references (.Array elems) = gdrList elems := rfl
          rw [this] at hhyp
          exact hhyp
        obtain ⟨d2, rs, hres, hs2⟩ := (ihn.2.2) elems hd dc hstruct hhyp2
        refine ⟨d2, .Array rs, ?_, hs2⟩
        simp only [resolve_pon_dependencies, hres]
    · intro fs hsz dc hstruct hhyp
      match fs with
      | [] => exact ⟨dc, [], rfl, hstruct⟩
      | (k, v) :: rest =>
        have hv : sizeOf v < n := by
          have := hsz
          simp [List.cons.sizeOf_spec, Prod.mk.sizeOf_spec] at this
          omega
        have hrest : sizeOf rest < n := by
          have := hsz
          simp [List.cons.sizeOf_spec] at this
          omega
        have hgdr : gdrFields ((k, v) :: rest) =
            v.get_dependency_references ++ gdrFields rest := rfl
        rw [hgdr] at hhyp
        obtain ⟨d1, r, hres1, hs1⟩ := (ihn.1) v hv dc hstruct (RpdHyp_append_left hhyp)
        obtain ⟨d2, rs, hres2, hs2⟩ := (ihn.2.1) rest hrest d1 hs1 (RpdHyp_append_right hhyp)
        refine ⟨d2, (k, r) :: rs, ?_, hs2⟩
        simp only [rpdFields, hres1, hres2]
    · intro l hsz dc hstruct hhyp
      match l with
      | [] => exact ⟨dc, [], rfl, hstruct⟩
      | v :: rest =>
        have hv : sizeOf v < n := by
          have := hsz
          simp [List.cons.sizeOf_spec] at this
          omega
        have hrest : sizeOf rest < n := by
          have := hsz
          simp [List.cons.sizeOf_spec] at this
          omega
        have hgdr : gdrList (v :: rest) = v.get_dependency_references ++ gdrList rest := rfl
        rw [hgdr] at hhyp
        obtain ⟨d1, r, hres1, hs1⟩ := (ihn.1) v hv dc hstruct (RpdHyp_append_left hhyp)
        obtain ⟨d2, rs, hres2, hs2⟩ := (ihn.2.2) rest hrest d1 hs1 (RpdHyp_append_right hhyp)
        refine ⟨d2, r :: rs, ?_, hs2⟩
        simp only [rpdList, hres1, hres2]

/-- Resolution succeeds whenever every enumerated reference of the node
resolves and its target entity exists. -/
theorem resolve_pon_dependencies_ok (fuel : Nat) (d0 : Document) (e : Nat) (node : Pon)
    (dc : Document) (hstruct : struct_eq dc d0)
    (hhyp : RpdHyp fuel d0 e node.get_dependency_references) :
    ∃ d2 r, resolve_pon_dependencies fuel dc e node = some (d2, .ok r) ∧ struct_eq d2 d0 :=
  (rpd_ok_aux fuel d0 e (sizeOf node + 1)).1 node (Nat.lt_succ_self _) dc hstruct hhyp

/-- A failure while resolving dependencies aborts set_property before any
mutation: the returned document is the input document itself. -/
theorem set_property_resolution_failure (fuel : Nat) (d : Document) (entity_id : Nat)
    (name : String) (expr : Pon) (entity : Entity) (err : DocError)
    (hent : hmGet d.entities entity_id = some entity)
    (hbad : build_property_node_dependencies fuel d entity expr = some (.error err)) :
    set_property fuel d entity_id name expr = some (d, .error err) := by
  unfold set_property
  simp only [hent, hbad]

/-- A failure while registering dependants aborts set_property with the
document state reached by the partial registration loop. -/
theorem set_property_registration_failure (fuel : Nat) (d : Document) (entity_id : Nat)
    (name : String) (expr : Pon) (entity : Entity) (deps : List PropRef) (d1 : Document)
    (err : DocError)
    (hent : hmGet d.entities entity_id = some entity)
    (hdeps : build_property_node_dependencies fuel d entity expr = some (.ok deps))
    (hreg : register_dependants d deps { entity_id := entity_id, property_key := name } =
      (d1, .error err)) :
    set_property fuel d entity_id name expr = some (d1, .error err) := by
  unfold set_property
  simp only [hent, hdeps, hreg]

/-- Full inversion of a successful set_property call into its pipeline
stages. -/
theorem set_property_ok_inversion (fuel : Nat) (d : Document) (entity_id : Nat) (name : String)
    (expr : Pon) (d' : Document) (cs : List PropRef)
    (h : set_property fuel d entity_id name expr = some (d', .ok cs)) :
    ∃ entity deps d1 u d2 resolved ent_mut entity2,
      hmGet d.entities entity_id = some entity ∧
      build_property_node_dependencies fuel d entity expr = some (.ok deps) ∧
      register_dependants d deps { entity_id := entity_id, property_key := name } = (d1, .ok u) ∧
      resolve_pon_dependencies fuel d1 entity_id expr = some (d2, .ok resolved) ∧
      hmGet d2.entities entity_id = some ent_mut ∧
      d' = installProp { d2 with cells := d2.cells ++ [resolved] } entity_id name
        d2.cells.length ent_mut ∧
      hmGet d'.entities entity_id = some entity2 ∧
      build_property_cascades fuel d' entity2 name
        [{ entity_id := entity_id, property_key := name }] = some (.ok cs) := by
  unfold set_property at h
  match g1 : hmGet d.entities entity_id with
  | none => simp [g1] at h
  | some entity =>
    simp only [g1] at h
    match g2 : build_property_node_dependencies fuel d entity expr with
    | none => simp [g2] at h
    | some (.error e) => simp [g2] at h
    | some (.ok deps) =>
      simp only [g2] at h
      match g3 : register_dependants d deps { entity_id := entity_id, property_key := name } with
      | (d1, .error e) => simp [g3] at h
      | (d1, .ok u) =>
        simp only [g3] at h
        match g4 : resolve_pon_dependencies fuel d1 entity_id expr with
        | none => simp [g4] at h
        | some (d2, .error e) => simp [g4] at h
        | some (d2, .ok resolved) =>
          simp only [g4] at h
          match g5 : hmGet d2.entities entity_id with
          | none => simp [g5] at h
          | some ent_mut =>
            simp only [g5] at h
            match g6 : hmGet (installProp { d2 with cells := d2.cells ++ [resolved] } entity_id
                name d2.cells.length ent_mut).entities entity_id with
            | none => simp [g6] at h
            | some entity2 =>
              simp only [g6] at h
              match g7 : build_property_cascades fuel (installProp { d2 with
                  cells := d2.cells ++ [resolved] } entity_id name d2.cells.length ent_mut)
                  entity2 name [{ entity_id := entity_id, property_key := name }] with
              | none => simp [g7] at h
              | some (.error e) => simp [g7] at h
              | some (.ok cs2) =>
                simp only [g7, Option.some.injEq, Prod.mk.injEq, Except.ok.injEq] at h
                obtain ⟨hd', hcs⟩ := h
                refine ⟨entity, deps, d1, u, d2, resolved, ent_mut, entity2,
                  rfl, g2, g3, g4, g5, hd'.symm, ?_, ?_⟩
                · rw [← hd']
                  exact g6
                · rw [← hd', ← hcs]
                  exact g7

/-- More fuel never changes a successful walk. -/
theorem dfs_walk_mono (d : Document) : ∀ f g, f ≤ g →
    (∀ pr l, dfs_walk d f pr = some l → dfs_walk d g pr = some l) ∧
    (∀ prs ls, dfs_walk_deps d f prs = some ls → dfs_walk_deps d g prs = some ls) := by
  intro f
  induction f using Nat.strong_induction_on with
  | _ f ihf =>
    intro g hfg
    have P1 : ∀ pr l, dfs_walk d f pr = some l → dfs_walk d g pr = some l := by
      intro pr l h
      match f, g, hfg with
      | 0, _, _ => simp [dfs_walk] at h
      | f' + 1, g' + 1, hfg =>
        have hfg' : f' ≤ g' := Nat.succ_le_succ_iff.mp hfg
        simp only [dfs_walk] at h ⊢
        match ge : hmGet d.entities pr.entity_id with
        | none => rw [ge] at h; simp at h
        | some ent =>
          simp only [ge] at h ⊢
          match gp : hmGet ent.properties pr.property_key with
          | none => simp [gp] at h
          | some prop =>
            simp only [gp] at h ⊢
            match gd : dfs_walk_deps d f' prop.dependants with
            | none => simp [gd] at h
            | some tails =>
              simp only [gd] at h
              have h2 := (ihf f' (Nat.lt_succ_self f') g' hfg').2 prop.dependants tails gd
              simp only [h2]
              exact h
    refine ⟨P1, ?_⟩
    intro prs
    induction prs with
    | nil =>
      intro ls h
      simp only [dfs_walk_deps] at h ⊢
      exact h
    | cons q rest ihl =>
      intro ls h
      simp only [dfs_walk_deps] at h ⊢
      match gq : dfs_walk d f q with
      | none => rw [gq] at h; simp at h
      | some l1 =>
        simp only [gq] at h
        match gr : dfs_walk_deps d f rest with
        | none => rw [gr] at h; simp at h
        | some ls1 =>
          simp only [gr] at h
          simp only [P1 q l1 gq, ihl ls1 gr]
          exact h

/-- A successful cascade loop is exactly the flattened pointwise walk of
its dependant list, appended to the accumulator. -/
theorem cascades_are_walks : ∀ fuel,
    (∀ (d : Document) (ent : Entity) (key : String) (acc out : List PropRef),
      build_property_cascades fuel d ent key acc = some (.ok out) →
      ∃ prop, hmGet ent.properties key = some prop ∧
        ∃ g ls, dfs_walk_deps d g prop.dependants = some ls ∧ out = acc ++ ls.flatten) ∧
    (∀ (d : Document) (prs acc out : List PropRef),
      bpcLoop fuel d prs acc = some (.ok out) →
      ∃ g ls, dfs_walk_deps d g prs = some ls ∧ out = acc ++ ls.flatten) := by
  intro fuel
  induction fuel using Nat.strong_induction_on with
  | _ fuel ihf =>
    have P2 : ∀ (d : Document) (prs acc out : List PropRef),
        bpcLoop fuel d prs acc = some (.ok out) →
        ∃ g ls, dfs_walk_deps d g prs = some ls ∧ out = acc ++ ls.flatten := by
      intro d prs
      induction prs with
      | nil =>
        intro acc out h
        simp only [bpcLoop, Option.some.injEq, Except.ok.injEq] at h
        exact ⟨0, [], by simp [dfs_walk_deps], by simp [h]⟩
      | cons q rest ihl =>
        intro acc out h
        cases fuel with
        | zero => simp [bpcLoop] at h
        | succ f =>
          simp only [bpcLoop] at h
          match ge : hmGet d.entities q.entity_id with
          | none => rw [ge] at h; simp at h
          | some ent =>
            simp only [ge] at h
            match gb : build_property_cascades f d ent q.property_key (acc ++ [q]) with
            | none => simp [gb] at h
            | some (.error e) => simp [gb] at h
            | some (.ok acc2) =>
              simp only [gb] at h
              obtain ⟨prop, gprop, g1, ls1, gls1, hacc2⟩ :=
                (ihf f (Nat.lt_succ_self f)).1 d ent q.property_key (acc ++ [q]) acc2 gb
              obtain ⟨g2, ls2, gls2, hout⟩ := ihl acc2 out h
              refine ⟨max (g1 + 1) g2, (q :: ls1.flatten) :: ls2, ?_, ?_⟩
              · have hq : dfs_walk d (max (g1 + 1) g2) q = some (q :: ls1.flatten) := by
                  have hbase : dfs_walk d (g1 + 1) q = some (q :: ls1.flatten) := by
                    simp only [dfs_walk, ge, gprop, gls1]
                  exact (dfs_walk_mono d (g1 + 1) (max (g1 + 1) g2)
                    (Nat.le_max_left _ _)).1 q (q :: ls1.flatten) hbase
                have hr : dfs_walk_deps d (max (g1 + 1) g2) rest = some ls2 :=
                  (dfs_walk_mono d g2 (max (g1 + 1) g2) (Nat.le_max_right _ _)).2 rest ls2 gls2
                match hmx : max (g1 + 1) g2 with
                | 0 =>
                  rw [hmx] at hq
                  simp [dfs_walk] at hq
                | gm + 1 =>
                  rw [hmx] at hq hr
                  simp only [dfs_walk_deps, hq, hr]
              · rw [hout, hacc2]
                simp [List.append_assoc]
    constructor
    · intro d ent key acc out h
      cases fuel with
      | zero => simp [build_property_cascades] at h
      | succ f =>
        simp only [build_property_cascades] at h
        match gp : hmGet ent.properties key with
        | none => rw [gp] at h; simp at h
        | some prop =>
          simp only [gp] at h
          obtain ⟨g, ls, hls, hout⟩ := (ihf f (Nat.lt_succ_self f)).2 d prop.dependants acc out h
          exact ⟨prop, rfl, g, ls, hls, hout⟩
    · exact P2

/-- The lazily creating lookup never disturbs an existing property
binding and only ever appends cells. -/
theorem get_or_create_doc_preserve (dc : Document) (x : Nat) (ent : Entity) (key : String)
    (hg : hmGet dc.entities x = some ent) (ent2 : Entity) (cells2 : List Pon) (cid : Nat)
    (hgc : ent.get_or_create_property dc.cells key = (ent2, cells2, cid)) :
    (∀ q p, propGet dc q = some p →
      propGet { dc with entities := hmInsert dc.entities x ent2, cells := cells2 } q = some p) ∧
    ∃ ext, cells2 = dc.cells ++ ext := by
  unfold Entity.get_or_create_property at hgc
  match gp : hmGet ent.properties key with
  | some p0 =>
    rw [gp] at hgc
    simp only [Prod.mk.injEq] at hgc
    obtain ⟨hent2, hcells2, hcid⟩ := hgc
    subst hent2
    subst hcells2
    refine ⟨?_, [], by simp⟩
    intro q p hq
    unfold propGet at hq ⊢
    dsimp only
    by_cases he : q.entity_id = x
    · rw [he, hmGet_hmInsert_same]
      rw [he, hg] at hq
      exact hq
    · rw [hmGet_hmInsert_ne dc.entities x q.entity_id ent he]
      exact hq
  | none =>
    rw [gp] at hgc
    simp only [Prod.mk.injEq] at hgc
    obtain ⟨hent2, hcells2, hcid⟩ := hgc
    refine ⟨?_, [Pon.Nil], hcells2.symm⟩
    intro q p hq
    unfold propGet at hq ⊢
    dsimp only
    by_cases he : q.entity_id = x
    · rw [he, hmGet_hmInsert_same, ← hent2]
      rw [he, hg] at hq
      simp only [Option.some_bind] at hq ⊢
      by_cases hk : q.property_key = key
      · rw [hk] at hq
        rw [gp] at hq
        cases hq
      · rw [hmGet_hmInsert_ne ent.properties key q.property_key _ hk]
        exact hq
    · rw [hmGet_hmInsert_ne dc.entities x q.entity_id ent2 he]
      exact hq

/-- Successful resolution preserves every existing property binding and
only appends cells (placeholder creation touches vacant keys only).
Proved for nodes, object field lists and array element lists
simultaneously, by strong induction on size. -/
theorem rpd_preserve_aux (fuel : Nat) (e : Nat) : ∀ (n : Nat),
    (∀ node : Pon, sizeOf node < n → ∀ dc d2 r,
      resolve_pon_dependencies fuel dc e node = some (d2, .ok r) →
      (∀ q p, propGet dc q = some p → propGet d2 q = some p) ∧
      ∃ ext, d2.cells = dc.cells ++ ext) ∧
    (∀ fs : List (String × Pon), sizeOf fs < n → ∀ dc d2 rs,
      rpdFields fuel dc e fs = some (d2, .ok rs) →
      (∀ q p, propGet dc q = some p → propGet d2 q = some p) ∧
      ∃ ext, d2.cells = dc.cells ++ ext) ∧
    (∀ l : List Pon, sizeOf l < n → ∀ dc d2 rs,
      rpdList fuel dc e l = some (d2, .ok rs) →
      (∀ q p, propGet dc q = some p → propGet d2 q = some p) ∧
      ∃ ext, d2.cells = dc.cells ++ ext) := by
  intro n
  induction n with
  | zero => exact ⟨fun _ h => absurd h (Nat.not_lt_zero _), fun _ h => absurd h (Nat.not_lt_zero _),
      fun _ h => absurd h (Nat.not_lt_zero _)⟩
  | succ n ihn =>
    refine ⟨?_, ?_, ?_⟩
    · intro node hsz dc d2 r h
      match node with
      | .Nil => simp only [resolve_pon_dependencies, Option.some.injEq, Prod.mk.injEq] at h
                exact ⟨fun q p hq => by rw [← h.1]; exact hq, [], by rw [← h.1]; simp⟩
      | .Integer m => simp only [resolve_pon_dependencies, Option.some.injEq, Prod.mk.injEq] at h
                      exact ⟨fun q p hq => by rw [← h.1]; exact hq, [], by rw [← h.1]; simp⟩
      | .Float fr => simp only [resolve_pon_dependencies, Option.some.injEq, Prod.mk.injEq] at h
                     exact ⟨fun q p hq => by rw [← h.1]; exact hq, [], by rw [← h.1]; simp⟩
      | .Str str => simp only [resolve_pon_dependencies, Option.some.injEq, Prod.mk.injEq] at h
                    exact ⟨fun q p hq => by rw [← h.1]; exact hq, [], by rw [← h.1]; simp⟩
      | .ResolvedDependencyReference c =>
        simp only [resolve_pon_dependencies, Option.some.injEq, Prod.mk.injEq] at h
        exact ⟨fun q p hq => by rw [← h.1]; exact hq, [], by rw [← h.1]; simp⟩
      | .TypedPon tn data =>
        have hd : sizeOf data < n := by
          have := hsz
          simp [Pon.TypedPon.sizeOf_spec] at this
          omega
        simp only [resolve_pon_dependencies] at h
        match gr : resolve_pon_dependencies fuel dc e data with
        | none => rw [gr] at h; simp at h
        | some (d1, .error e2) => rw [gr] at h; simp at h
        | some (d1, .ok r1) =>
          rw [gr] at h
          simp only [Option.some.injEq, Prod.mk.injEq] at h
          obtain ⟨hd1, _⟩ := h
          rw [← hd1]
          exact ihn.1 data hd dc d1 r1 gr
      | .DependencyReference npr =>
        simp only [resolve_pon_dependencies] at h
        match gres : resolve_named_prop_ref fuel dc e npr with
        | none => rw [gres] at h; simp at h
        | some (.error e2) => rw [gres] at h; simp at h
        | some (.ok pr) =>
          simp only [gres] at h
          match gent : hmGet dc.entities pr.entity_id with
          | none => rw [gent] at h; simp at h
          | some ent =>
            simp only [gent] at h
            match ggc : ent.get_or_create_property dc.cells pr.property_key with
            | (ent2, cells2, cid) =>
              simp only [ggc] at h
              simp only [Option.some.injEq, Prod.mk.injEq] at h
              obtain ⟨hd2, _⟩ := h
              have hpres := get_or_create_doc_preserve dc pr.entity_id ent pr.property_key
                gent ent2 cells2 cid ggc
              rw [← hd2]
              exact ⟨hpres.1, hpres.2⟩
      | .Object fields =>
        have hd : sizeOf fields < n := by
          have := hsz
          simp [Pon.Object.sizeOf_spec] at this
          omega
        simp only [resolve_pon_dependencies] at h
        match gr : rpdFields fuel dc e fields with
        | none => rw [gr] at h; simp at h
        | some (d1, .error e2) => rw [gr] at h; simp at h
        | some (d1, .ok rs1) =>
          rw [gr] at h
          simp only [Option.some.injEq, Prod.mk.injEq] at h
          obtain ⟨hd1, _⟩ := h
          rw [← hd1]
          exact ihn.2.1 fields hd dc d1 rs1 gr
      | .Array elems =>
        have hd : sizeOf elems < n := by
          have := hsz
          simp [Pon.Array.sizeOf_spec] at this
          omega
        simp only [resolve_pon_dependencies] at h
        match gr : rpdList fuel dc e elems with
        | none => rw [gr] at h; simp at h
        | some (d1, .error e2) => rw [gr] at h; simp at h
        | some (d1, .ok rs1) =>
          rw [gr] at h
          simp only [Option.some.injEq, Prod.mk.injEq] at h
          obtain ⟨hd1, _⟩ := h
          rw [← hd1]
          exact ihn.2.2 elems hd dc d1 rs1 gr
    · intro fs hsz dc d2 rs h
      match fs with
      | [] =>
        simp only [rpdFields, Option.some.injEq, Prod.mk.injEq] at h
        exact ⟨fun q p hq => by rw [← h.1]; exact hq, [], by rw [← h.1]; simp⟩
      | (k, v) :: rest =>
        have hv : sizeOf v < n := by
          have := hsz
          simp [List.cons.sizeOf_spec, Prod.mk.sizeOf_spec] at this
          omega
        have hrest : sizeOf rest < n := by
          have := hsz
          simp [List.cons.sizeOf_spec] at this
          omega
        simp only [rpdFields] at h
        match g1 : resolve_pon_dependencies fuel dc e v with
        | none => rw [g1] at h; simp at h
        | some (d1, .error e2) => rw [g1] at h; simp at h
        | some (d1, .ok r1) =>
          simp only [g1] at h
          match g2 : rpdFields fuel d1 e rest with
          | none => rw [g2] at h; simp at h
          | some (dx, .error e2) => rw [g2] at h; simp at h
          | some (dx, .ok rs2) =>
            simp only [g2, Option.some.injEq, Prod.mk.injEq] at h
            obtain ⟨hdx, _⟩ := h
            rw [← hdx]
            obtain ⟨pres1, ext1, hext1⟩ := ihn.1 v hv dc d1 r1 g1
            obtain ⟨pres2, ext2, hext2⟩ := ihn.2.1 rest hrest d1 dx rs2 g2
            exact ⟨fun q p hq => pres2 q p (pres1 q p hq),
              ext1 ++ ext2, by rw [hext2, hext1]; simp⟩
    · intro l hsz dc d2 rs h
      match l with
      | [] =>
        simp only [rpdList, Option.some.injEq, Prod.mk.injEq] at h
        exact ⟨fun q p hq => by rw [← h.1]; exact hq, [], by rw [← h.1]; simp⟩
      | v :: rest =>
        have hv : sizeOf v < n := by
          have := hsz
          simp [List.cons.sizeOf_spec] at this
          omega
        have hrest : sizeOf rest < n := by
          have := hsz
          simp [List.cons.sizeOf_spec] at this
          omega
        simp only [rpdList] at h
        match g1 : resolve_pon_dependencies fuel dc e v with
        | none => rw [g1] at h; simp at h
        | some (d1, .error e2) => rw [g1] at h; simp at h
        | some (d1, .ok r1) =>
          simp only [g1] at h
          match g2 : rpdList fuel d1 e rest with
          | none => rw [g2] at h; simp at h
          | some (dx, .error e2) => rw [g2] at h; simp at h
          | some (dx, .ok rs2) =>
            simp only [g2, Option.some.injEq, Prod.mk.injEq] at h
            obtain ⟨hdx, _⟩ := h
            rw [← hdx]
            obtain ⟨pres1, ext1, hext1⟩ := ihn.1 v hv dc d1 r1 g1
            obtain ⟨pres2, ext2, hext2⟩ := ihn.2.2 rest hrest d1 dx rs2 g2
            exact ⟨fun q p hq => pres2 q p (pres1 q p hq),
              ext1 ++ ext2, by rw [hext2, hext1]; simp⟩

theorem resolve_pon_dependencies_preserve (fuel : Nat) (e : Nat) (node : Pon)
    (dc d2 : Document) (r : Pon)
    (h : resolve_pon_dependencies fuel dc e node = some (d2, .ok r)) :
    (∀ q p, propGet dc q = some p → propGet d2 q = some p) ∧
    ∃ ext, d2.cells = dc.cells ++ ext :=
  (rpd_preserve_aux fuel e (sizeOf node + 1)).1 node (Nat.lt_succ_self _) dc d2 r h

/-- Walking a dependant list that contains the walk's own origin can
never complete: the recursion re-enters the origin for ever (no cycle
detection exists). -/
theorem bpcLoop_self_cycle (d : Document) (self : PropRef) (entS : Entity) (pS : Property)
    (hent : hmGet d.entities self.entity_id = some entS)
    (hprop : hmGet entS.properties self.property_key = some pS)
    (hmem : self ∈ pS.dependants) :
    ∀ fuel prs acc out, self ∈ prs → bpcLoop fuel d prs acc ≠ some (.ok out) := by
  intro fuel
  induction fuel using Nat.strong_induction_on with
  | _ fuel ihf =>
    cases fuel with
    | zero =>
      intro prs acc out hmem2 hcontra
      cases prs with
      | nil => simp at hmem2
      | cons q rest => simp [bpcLoop] at hcontra
    | succ f =>
      intro prs
      induction prs with
      | nil =>
        intro acc out hmem2
        simp at hmem2
      | cons q rest ihl =>
        intro acc out hmem2 hcontra
        simp only [bpcLoop] at hcontra
        match ge : hmGet d.entities q.entity_id with
        | none => rw [ge] at hcontra; simp at hcontra
        | some entQ =>
          simp only [ge] at hcontra
          match gb : build_property_cascades f d entQ q.property_key (acc ++ [q]) with
          | none => simp [gb] at hcontra
          | some (.error e) => simp [gb] at hcontra
          | some (.ok acc2) =>
            simp only [gb] at hcontra
            rcases List.mem_cons.mp hmem2 with hq | hrest
            · subst hq
              match f with
              | 0 => simp [build_property_cascades] at gb
              | f2 + 1 =>
                simp only [build_property_cascades] at gb
                have hentq : entQ = entS := by
                  rw [hent] at ge
                  exact (Option.some.inj ge).symm
                subst hentq
                rw [hprop] at gb
                simp only at gb
                exact ihf f2 (by omega) pS.dependants (acc ++ [self]) acc2 hmem gb
            · exact ihl acc2 out hrest hcontra

theorem first_name_match_cons (a : Entity) (l : List Entity) (name : String) :
    first_name_match (a :: l) name =
      if a.name = some name then some a else first_name_match l name := by
  unfold first_name_match
  by_cases hp : a.name = some name
  · rw [List.find?_cons_of_pos _ (by simpa using hp), if_pos hp]
  · rw [List.find?_cons_of_neg _ (by simpa using hp), if_neg hp]

theorem first_name_match_append (l1 l2 : List Entity) (name : String) :
    first_name_match (l1 ++ l2) name =
      match first_name_match l1 name with
      | some ent => some ent
      | none => first_name_match l2 name := by
  induction l1 with
  | nil => simp [first_name_match]
  | cons a l1 ih =>
    rw [List.cons_append, first_name_match_cons, first_name_match_cons]
    by_cases hp : a.name = some name
    · simp [hp]
    · simp only [if_neg hp]
      exact ih

/-- A terminating search agrees with the first match of any terminating
pre-order listing of the same subtree. -/
theorem search_preorder_aux : ∀ f,
    (∀ (d : Document) (g : Nat) (eid : Nat) (name : String) (res : Except DocError Nat)
      (ls : List Entity), search_children f d eid name = some res →
      preorder d g eid = some ls → res = search_spec ls name) ∧
    (∀ (d : Document) (g : Nat) (cs : List Nat) (name : String) (res : Except DocError Nat)
      (ls : List Entity), search_children_list f d cs name = some res →
      preorderList d g cs = some ls → res = search_spec ls name) := by
  intro f
  induction f using Nat.strong_induction_on with
  | _ f ihf =>
    have PB : ∀ (d : Document) (g : Nat) (cs : List Nat) (name : String)
        (res : Except DocError Nat) (ls : List Entity),
        search_children_list f d cs name = some res →
        preorderList d g cs = some ls → res = search_spec ls name := by
      intro d g cs
      induction cs generalizing g with
      | nil =>
        intro name res ls hs hp
        have hres : res = .error .BadReference := by
          cases f <;> simpa [search_children_list] using hs.symm
        have hls : ls = [] := by
          cases g <;> simpa [preorderList] using hp.symm
        rw [hres, hls]
        rfl
      | cons c rest ihl =>
        intro name res ls hs hp
        cases f with
        | zero => simp [search_children_list] at hs
        | succ f0 =>
          match g, hp with
          | 0, hp => simp [preorderList] at hp
          | g0 + 1, hp =>
            simp only [search_children_list] at hs
            simp only [preorderList] at hp
            match gp1 : preorder d (g0 + 1) c with
            | none => rw [gp1] at hp; simp at hp
            | some l1 =>
              simp only [gp1] at hp
              match gp2 : preorderList d (g0 + 1) rest with
              | none => rw [gp2] at hp; simp at hp
              | some l2 =>
                simp only [gp2, Option.some.injEq] at hp
                match gs1 : search_children f0 d c name with
                | none => rw [gs1] at hs; simp at hs
                | some sub =>
                  simp only [gs1] at hs
                  have hsub := (ihf f0 (Nat.lt_succ_self f0)).1 d (g0 + 1) c name sub l1 gs1 gp1
                  rw [← hp]
                  unfold search_spec
                  rw [first_name_match_append l1 l2 name]
                  unfold search_spec at hsub
                  match sub, hs, hsub with
                  | .ok id, hs, hsub =>
                    simp only [Option.some.injEq] at hs
                    match gf : first_name_match l1 name with
                    | none => rw [gf] at hsub; simp at hsub
                    | some ent =>
                      rw [gf] at hsub
                      simp only [Except.ok.injEq] at hsub
                      rw [← hs, hsub]
                  | .error e2, hs, hsub =>
                    match gf : first_name_match l1 name with
                    | some ent => rw [gf] at hsub; simp at hsub
                    | none =>
                      show res = search_spec l2 name
                      exact ihl (g0 + 1) name res l2 hs gp2
    refine ⟨?_, PB⟩
    intro d g eid name res ls hs hp
    cases f with
    | zero => simp [search_children] at hs
    | succ f0 =>
      match g, hp with
      | 0, hp => simp [preorder] at hp
      | g0 + 1, hp =>
        simp only [search_children] at hs
        simp only [preorder] at hp
        match ge : hmGet d.entities eid with
        | none =>
          rw [ge] at hp
          simp only [Option.some.injEq] at hp
          rw [ge] at hs
          simp only [Option.some.injEq] at hs
          rw [← hs, ← hp]
          rfl
        | some ent =>
          simp only [ge] at hs hp
          match gc : preorderList d g0 ent.children_ids with
          | none => rw [gc] at hp; simp at hp
          | some lc =>
            simp only [gc, Option.some.injEq] at hp
            rw [← hp]
            by_cases hn : ent.name = some name
            · simp only [if_pos hn] at hs
              unfold search_spec
              rw [first_name_match_cons, if_pos hn]
              simp only [Option.some.injEq] at hs
              rw [← hs]
            · simp only [if_neg hn] at hs
              unfold search_spec
              rw [first_name_match_cons, if_neg hn]
              exact (ihf f0 (Nat.lt_succ_self f0)).2 d g0 ent.children_ids name res lc hs gc

/-- Every append, also a failed one, advances the id counter by one
(new_id runs before the parent is validated). -/
theorem append_entity_counter (d : Document) (p : Nat) (t : String) (n : Option String) :
    (append_entity d p t n).1.id_counter = d.id_counter + 1 := by
  unfold append_entity
  by_cases hp : p = SENTINEL
  · simp only [hp, eq_self_iff_true, if_true]
    cases n <;> rfl
  · simp only [if_neg hp]
    match g : hmGet d.entities p with
    | none => rfl
    | some parent => cases n <;> rfl

/-- Full inversion of a successful append. -/
theorem append_entity_ok_inversion (d : Document) (p : Nat) (t : String) (n : Option String)
    (d' : Document) (i : Nat) (h : append_entity d p t n = (d', .ok i)) :
    i = d.id_counter + 1 ∧ d'.id_counter = i ∧ d'.cells = d.cells ∧
    (n = none → d'.entity_ids_by_name = d.entity_ids_by_name) ∧
    (∀ nm, n = some nm → d'.entity_ids_by_name = hmInsert d.entity_ids_by_name nm i) ∧
    ((p = SENTINEL ∧ d'.entities = hmInsert d.entities i (newEntity i p t n)) ∨
     (p ≠ SENTINEL ∧ ∃ parent, hmGet d.entities p = some parent ∧
        d'.entities = hmInsert (hmInsert d.entities p
          ({ parent with children_ids := parent.children_ids ++ [i] })) i (newEntity i p t n))) := by
  unfold append_entity at h
  by_cases hp : p = SENTINEL
  · subst hp
    simp only [eq_self_iff_true, if_true] at h
    cases n with
    | none =>
      simp only [Prod.mk.injEq, Except.ok.injEq] at h
      obtain ⟨hd', hi⟩ := h
      subst hi
      refine ⟨rfl, by rw [← hd'], by rw [← hd'], fun _ => by rw [← hd'],
        fun nm hnm => Option.noConfusion hnm, Or.inl ⟨rfl, by rw [← hd']; rfl⟩⟩
    | some nm =>
      simp only [Prod.mk.injEq, Except.ok.injEq] at h
      obtain ⟨hd', hi⟩ := h
      subst hi
      refine ⟨rfl, by rw [← hd'], by rw [← hd'], fun hc => Option.noConfusion hc,
        fun nm2 hnm => ?_, Or.inl ⟨rfl, by rw [← hd']; rfl⟩⟩
      cases hnm
      rw [← hd']
  · simp only [if_neg hp] at h
    match g : hmGet d.entities p with
    | none =>
      rw [show hmGet ({ d with id_counter := d.id_counter + 1 } : Document).entities p =
        hmGet d.entities p from rfl, g] at h
      simp at h
    | some parent =>
      rw [show hmGet ({ d with id_counter := d.id_counter + 1 } : Document).entities p =
        hmGet d.entities p from rfl, g] at h
      cases n with
      | none =>
        simp only [Prod.mk.injEq, Except.ok.injEq] at h
        obtain ⟨hd', hi⟩ := h
        subst hi
        refine ⟨rfl, by rw [← hd'], by rw [← hd'], fun _ => by rw [← hd'],
          fun nm hnm => Option.noConfusion hnm, Or.inr ⟨hp, parent, rfl, by rw [← hd']; rfl⟩⟩
      | some nm =>
        simp only [Prod.mk.injEq, Except.ok.injEq] at h
        obtain ⟨hd', hi⟩ := h
        subst hi
        refine ⟨rfl, by rw [← hd'], by rw [← hd'], fun hc => Option.noConfusion hc,
          fun nm2 hnm => ?_, Or.inr ⟨hp, parent, rfl, by rw [← hd']; rfl⟩⟩
        cases hnm
        rw [← hd']

/-- The id counter never decreases over a run of appends. -/
theorem runAppends_counter_mono (ops : List (Nat × String × Option String)) :
    ∀ d : Document, d.id_counter ≤ (runAppends d ops).1.id_counter := by
  induction ops with
  | nil => intro d; simp [runAppends]
  | cons op rest ih =>
    intro d
    obtain ⟨p, t, n⟩ := op
    have hc := append_entity_counter d p t n
    unfold runAppends
    match g : append_entity d p t n with
    | (d1, .ok i) =>
      rw [g] at hc
      dsimp only at hc
      dsimp only
      match g2 : runAppends d1 rest with
      | (d2, ids) =>
        dsimp only
        have h2 := ih d1
        rw [g2] at h2
        dsimp only at h2
        omega
    | (d1, .error e) =>
      rw [g] at hc
      dsimp only at hc
      dsimp only
      have h2 := ih d1
      omega

/-- Identifiers collected over any run of appends are strictly increasing
in call order and all strictly above the starting counter (and at most
the final counter). -/
theorem runAppends_ids (ops : List (Nat × String × Option String)) : ∀ d : Document,
    List.Pairwise (· < ·) (runAppends d ops).2 ∧
    (∀ i ∈ (runAppends d ops).2, d.id_counter < i ∧ i ≤ (runAppends d ops).1.id_counter) := by
  induction ops with
  | nil => intro d; exact ⟨List.Pairwise.nil, by simp [runAppends]⟩
  | cons op rest ih =>
    intro d
    obtain ⟨p, t, n⟩ := op
    have hc := append_entity_counter d p t n
    unfold runAppends
    match g : append_entity d p t n with
    | (d1, .ok i) =>
      rw [g] at hc
      dsimp only at hc
      have hi : i = d.id_counter + 1 :=
        (append_entity_ok_inversion d p t n d1 i g).1
      have hmono := runAppends_counter_mono rest d1
      dsimp only
      match g2 : runAppends d1 rest with
      | (d2, ids) =>
        rw [g2] at hmono
        dsimp only at hmono
        have hrest := ih d1
        rw [g2] at hrest
        dsimp only at hrest
        dsimp only
        constructor
        · exact List.Pairwise.cons
            (fun j hj => by
              have := (hrest.2 j hj).1
              omega)
            hrest.1
        · intro j hj
          rcases List.mem_cons.mp hj with hj1 | hj2
          · subst hj1
            exact ⟨by omega, by omega⟩
          · have h2 := hrest.2 j hj2
            exact ⟨by omega, h2.2⟩
    | (d1, .error e) =>
      rw [g] at hc
      dsimp only at hc
      dsimp only
      have hrest := ih d1
      refine ⟨hrest.1, fun j hj => ?_⟩
      have := hrest.2 j hj
      exact ⟨by omega, this.2⟩

/-- C1.  The repository's own test test_property_reference_update expects
that after x is reassigned to 9, a read of y (stored as a resolved
reference created when y was linked) observes 9.  The code cannot satisfy
it: set_property stores the new value in a freshly allocated cell and
swaps the Property's handle (document.rs lines 148-155), leaving the
previously shared cell untouched, so y still observes the old 5.0.  This
theorem evaluates the engine on the exact test fixture: the cascade is
the one the test asserts, the re-read of x gives 9, but the read of y
dereferences to Float 5.0 and not to Integer 9. -/
theorem c1_live_substitution_code_bug :
    set_property 9 docC1y 1 "x" (Pon.Integer 9) =
      some (docC1z, .ok [⟨1, "x"⟩, ⟨1, "y"⟩]) ∧
    (get_property_value docC1z 1 "x").map (deref_pon 4 docC1z) = .ok (Pon.Integer 9) ∧
    (get_property_value docC1z 1 "y").map (deref_pon 4 docC1z) = .ok (Pon.Float "5.0") ∧
    (get_property_value docC1z 1 "y").map (deref_pon 4 docC1z) ≠ .ok (Pon.Integer 9) := by
  refine ⟨?_, ?_, ?_, ?_⟩ <;>
    simp [docC1z, docC1y, docC1x, docA, docAfterSet, Document.new, append_entity, SENTINEL,
      set_property, build_property_node_dependencies, Pon.get_dependency_references, gdrFields,
      gdrList, resolve_refs, resolve_named_prop_ref, resolve_entity_path, search_children,
      search_children_list, register_dependants, push_dependant, pushProp, pushEnt,
      resolve_pon_dependencies, rpdFields, rpdList, Entity.get_or_create_property, installProp,
      build_property_cascades, bpcLoop, hmGet, hmInsert, get_property_value,
      get_entity_property_value, readCell, deref_pon, derefFields, derefList, Except.map]

/-- C2 counterexample.  The claim says a failing set_property leaves the
document unchanged with no dependant list gaining an entry.  On docB
(entity 1 with property a assigned), assigning y an array referencing
first the assigned a and then the unassigned b returns BadReference, yet
the dependant list of a has gained the entry (1, y): the registration
loop pushed it before the failing iteration (document.rs lines 135-147)
and the push is never rolled back. -/
theorem c2_linkage_not_atomic_counterexample :
    set_property 9 docB 1 "y"
      (Pon.Array [Pon.DependencyReference ⟨.this, "a"⟩, Pon.DependencyReference ⟨.this, "b"⟩]) =
      some (docC2err, .error .BadReference) ∧
    (propGet docB ⟨1, "a"⟩).map Property.dependants = some [] ∧
    (propGet docC2err ⟨1, "a"⟩).map Property.dependants = some [⟨1, "y"⟩] := by
  refine ⟨?_, ?_, ?_⟩ <;>
    simp [docC2err, docB, docA, docAfterSet, Document.new, append_entity, SENTINEL,
      set_property, build_property_node_dependencies, Pon.get_dependency_references, gdrFields,
      gdrList, resolve_refs, resolve_named_prop_ref, resolve_entity_path, search_children,
      search_children_list, register_dependants, push_dependant, pushProp, pushEnt,
      resolve_pon_dependencies, rpdFields, rpdList, Entity.get_or_create_property, installProp,
      build_property_cascades, bpcLoop, hmGet, hmInsert, propGet]

/-- C2 amended.  For every set_property whose dependency handling fails:
a failure while resolving the embedded references (step 3) surfaces the
error with the document entirely unchanged; a failure while registering
dependants (step 4) surfaces BadReference, and the document is unchanged
except that dependant lists of dependencies registered before the failing
iteration keep their new entries — in particular no property is created,
no expression cell is installed or replaced, and the name index, entity
tree and cells are untouched (equal erasures). -/
theorem c2_atomic_abort_amended (fuel : Nat) (d : Document) (entity_id : Nat) (name : String)
    (expr : Pon) (entity : Entity)
    (hent : hmGet d.entities entity_id = some entity) :
    (∀ err, build_property_node_dependencies fuel d entity expr = some (.error err) →
      set_property fuel d entity_id name expr = some (d, .error err)) ∧
    (∀ deps d1 err, build_property_node_dependencies fuel d entity expr = some (.ok deps) →
      register_dependants d deps { entity_id := entity_id, property_key := name } =
        (d1, .error err) →
      set_property fuel d entity_id name expr = some (d1, .error err) ∧
      err = .BadReference ∧ d1.erase_dependants = d.erase_dependants) := by
  constructor
  · intro err hbad
    exact set_property_resolution_failure fuel d entity_id name expr entity err hent hbad
  · intro deps d1 err hdeps hreg
    refine ⟨set_property_registration_failure fuel d entity_id name expr entity deps d1 err
      hent hdeps hreg, register_err_bad deps d { entity_id := entity_id, property_key := name }
      d1 err hreg, ?_⟩
    have := register_dependants_erase deps d { entity_id := entity_id, property_key := name }
    rw [hreg] at this
    exact this

theorem c2_atomic_abort_amended_witness :
    set_property 9 docB 1 "y" (Pon.DependencyReference ⟨.named "nowhere", "x"⟩) =
      some (docB, .error .BadReference) ∧
    set_property 9 docB 1 "y"
      (Pon.Array [Pon.DependencyReference ⟨.this, "a"⟩, Pon.DependencyReference ⟨.this, "b"⟩]) =
      some (docC2err, .error .BadReference) ∧
    docC2err.erase_dependants = docB.erase_dependants := by
  have h1 := (c2_atomic_abort_amended 9 docB 1 "y"
    (Pon.DependencyReference ⟨.named "nowhere", "x"⟩) (entOf docB 1) (by
      simp [docB, docA, docAfterSet, Document.new, append_entity, SENTINEL, set_property,
        build_property_node_dependencies, Pon.get_dependency_references, resolve_refs,
        resolve_named_prop_ref, resolve_entity_path, register_dependants, push_dependant,
        resolve_pon_dependencies, Entity.get_or_create_property, installProp,
        build_property_cascades, bpcLoop, hmGet, hmInsert, entOf, gdrFields, gdrList])).1
    .BadReference (by
      simp [docB, docA, docAfterSet, Document.new, append_entity, SENTINEL, set_property,
        build_property_node_dependencies, Pon.get_dependency_references, resolve_refs,
        resolve_named_prop_ref, resolve_entity_path, register_dependants, push_dependant,
        resolve_pon_dependencies, Entity.get_or_create_property, installProp,
        build_property_cascades, bpcLoop, hmGet, hmInsert, entOf, gdrFields, gdrList])
  have h2 := (c2_atomic_abort_amended 9 docB 1 "y"
    (Pon.Array [Pon.DependencyReference ⟨.this, "a"⟩, Pon.DependencyReference ⟨.this, "b"⟩])
    (entOf docB 1) (by
      simp [docB, docA, docAfterSet, Document.new, append_entity, SENTINEL, set_property,
        build_property_node_dependencies, Pon.get_dependency_references, resolve_refs,
        resolve_named_prop_ref, resolve_entity_path, register_dependants, push_dependant,
        resolve_pon_dependencies, Entity.get_or_create_property, installProp,
        build_property_cascades, bpcLoop, hmGet, hmInsert, entOf, gdrFields, gdrList])).2
    [⟨1, "a"⟩, ⟨1, "b"⟩] docC2err .BadReference (by
      simp [docB, docA, docAfterSet, Document.new, append_entity, SENTINEL, set_property,
        build_property_node_dependencies, Pon.get_dependency_references, resolve_refs,
        resolve_named_prop_ref, resolve_entity_path, register_dependants, push_dependant,
        resolve_pon_dependencies, Entity.get_or_create_property, installProp,
        build_property_cascades, bpcLoop, hmGet, hmInsert, entOf, gdrFields, gdrList])
    (by
      simp [docC2err, docB, docA, docAfterSet, Document.new, append_entity, SENTINEL,
        set_property, build_property_node_dependencies, Pon.get_dependency_references,
        resolve_refs, resolve_named_prop_ref, resolve_entity_path, register_dependants,
        push_dependant, pushProp, pushEnt, resolve_pon_dependencies,
        Entity.get_or_create_property, installProp, build_property_cascades, bpcLoop, hmGet,
        hmInsert, entOf, gdrFields, gdrList])
  exact ⟨h1, h2.1, h2.2.2⟩

/-- C3 counterexample.  The claim says that referencing a not yet
assigned property of an existing entity makes the assignment succeed,
creating the property as an empty placeholder and appending the
dependant.  On docA (entity 1 exists, no property assigned), assigning y
a reference to (this, x) instead returns BadReference with the document
unchanged: the registration loop (document.rs lines 135-147) answers
BadReference for a missing property and never calls
get_or_create_property, which only runs during expression resolution,
after registration has already succeeded. -/
theorem c3_placeholder_counterexample :
    set_property 9 docA 1 "y" (Pon.DependencyReference ⟨.this, "x"⟩) =
      some (docA, .error .BadReference) ∧
    (hmGet docA.entities 1).isSome = true ∧
    propGet docA ⟨1, "x"⟩ = none ∧
    propGet docA ⟨1, "y"⟩ = none := by
  refine ⟨?_, ?_, ?_, ?_⟩ <;>
    simp [docA, docAfterSet, Document.new, append_entity, SENTINEL, set_property,
      build_property_node_dependencies, Pon.get_dependency_references, gdrFields, gdrList,
      resolve_refs, resolve_named_prop_ref, resolve_entity_path, register_dependants,
      push_dependant, resolve_pon_dependencies, Entity.get_or_create_property, installProp,
      build_property_cascades, bpcLoop, hmGet, hmInsert, propGet]

/-- C3 amended.  For every set_property whose expression references a
property that does not exist (on an existing or a missing entity), the
assignment fails with BadReference instead of creating a placeholder:
the document keeps equal erasure (no property is created, no expression
is installed; only dependant lists of dependencies registered before the
failing iteration may have gained entries). -/
theorem c3_unassigned_reference_amended (fuel : Nat) (d : Document) (entity_id : Nat)
    (name : String) (expr : Pon) (entity : Entity) (deps : List PropRef) (pr : PropRef)
    (hent : hmGet d.entities entity_id = some entity)
    (hdeps : build_property_node_dependencies fuel d entity expr = some (.ok deps))
    (hpr : pr ∈ deps) (hmiss : propGet d pr = none) :
    ∃ d1, set_property fuel d entity_id name expr = some (d1, .error .BadReference) ∧
      d1.erase_dependants = d.erase_dependants := by
  obtain ⟨d1, hreg⟩ := register_err_of_missing deps d
    { entity_id := entity_id, property_key := name } ⟨pr, hpr, hmiss⟩
  refine ⟨d1, set_property_registration_failure fuel d entity_id name expr entity deps d1
    .BadReference hent hdeps hreg, ?_⟩
  have := register_dependants_erase deps d { entity_id := entity_id, property_key := name }
  rw [hreg] at this
  exact this

theorem c3_unassigned_reference_amended_witness :
    ∃ d1, set_property 9 docA 1 "y" (Pon.DependencyReference ⟨.this, "x"⟩) =
      some (d1, .error .BadReference) ∧ d1.erase_dependants = docA.erase_dependants := by
  refine c3_unassigned_reference_amended 9 docA 1 "y" (Pon.DependencyReference ⟨.this, "x"⟩)
    (entOf docA 1) [⟨1, "x"⟩] ⟨1, "x"⟩ ?_ ?_ (List.mem_singleton_self _) ?_ <;>
    simp [docA, docAfterSet, Document.new, append_entity, SENTINEL,
      build_property_node_dependencies, Pon.get_dependency_references, gdrFields, gdrList,
      resolve_refs, resolve_named_prop_ref, resolve_entity_path, hmGet, hmInsert, propGet, entOf]

/-- C4.  Every successful set_property returns a cascade whose first
element is the assigned property itself, the rest being the depth-first
pre-order walk of the dependant graph of the resulting document: each
dependant emitted, immediately followed recursively by its own
dependants, in dependant-list order (dfs_walk is that walk, written from
the specification text; it lists the origin first). -/
theorem c4_cascade_order (fuel : Nat) (d : Document) (entity_id : Nat) (name : String)
    (expr : Pon) (d' : Document) (cs : List PropRef)
    (h : set_property fuel d entity_id name expr = some (d', .ok cs)) :
    cs.head? = some { entity_id := entity_id, property_key := name } ∧
    ∃ g, dfs_walk d' g { entity_id := entity_id, property_key := name } = some cs := by
  obtain ⟨entity, deps, d1, u, d2, resolved, ent_mut, entity2, g1, g2, g3, g4, g5, hd', g6, g7⟩ :=
    set_property_ok_inversion fuel d entity_id name expr d' cs h
  obtain ⟨prop, gprop, g, ls, gls, hout⟩ := (cascades_are_walks fuel).1 d' entity2 name _ cs g7
  have hwalk : dfs_walk d' (g + 1) { entity_id := entity_id, property_key := name } =
      some ({ entity_id := entity_id, property_key := name } :: ls.flatten) := by
    simp only [dfs_walk, g6, gprop, gls]
  constructor
  · rw [hout]
    rfl
  · refine ⟨g + 1, ?_⟩
    rw [hwalk, hout]
    rfl

theorem c4_cascade_order_witness :
    ([{ entity_id := 1, property_key := "a" }, { entity_id := 1, property_key := "b" }] :
        List PropRef).head? = some { entity_id := 1, property_key := "a" } ∧
    ∃ g, dfs_walk docC4b g { entity_id := 1, property_key := "a" } =
      some [{ entity_id := 1, property_key := "a" }, { entity_id := 1, property_key := "b" }] :=
  c4_cascade_order 9 docC4 1 "a" (Pon.Integer 7) docC4b
    [{ entity_id := 1, property_key := "a" }, { entity_id := 1, property_key := "b" }] (by
      simp [docC4b, docC4, docB, docA, docAfterSet, Document.new, append_entity, SENTINEL,
        set_property, build_property_node_dependencies, Pon.get_dependency_references,
        gdrFields, gdrList, resolve_refs, resolve_named_prop_ref, resolve_entity_path,
        register_dependants, push_dependant, pushProp, pushEnt, resolve_pon_dependencies,
        rpdFields, rpdList, Entity.get_or_create_property, installProp,
        build_property_cascades, bpcLoop, hmGet, hmInsert])

/-- Every error a child search produces is BadReference. -/
theorem search_children_err_bad : ∀ f,
    (∀ (d : Document) (eid : Nat) (nm : String) (e : DocError),
      search_children f d eid nm = some (.error e) → e = .BadReference) ∧
    (∀ (d : Document) (cs : List Nat) (nm : String) (e : DocError),
      search_children_list f d cs nm = some (.error e) → e = .BadReference) := by
  intro f
  induction f using Nat.strong_induction_on with
  | _ f ihf =>
    have PB : ∀ (d : Document) (cs : List Nat) (nm : String) (e : DocError),
        search_children_list f d cs nm = some (.error e) → e = .BadReference := by
      intro d cs
      induction cs with
      | nil =>
        intro nm e h
        have : (Except.error .BadReference : Except DocError Nat) = .error e := by
          cases f <;> simpa [search_children_list] using h
        simpa using this.symm
      | cons c rest ihl =>
        intro nm e h
        cases f with
        | zero => simp [search_children_list] at h
        | succ f0 =>
          simp only [search_children_list] at h
          match gs : search_children f0 d c nm with
          | none => rw [gs] at h; simp at h
          | some (.ok i) => rw [gs] at h; simp at h
          | some (.error e2) =>
            simp only [gs] at h
            exact ihl nm e h
    refine ⟨?_, PB⟩
    intro d eid nm e h
    cases f with
    | zero => simp [search_children] at h
    | succ f0 =>
      simp only [search_children] at h
      match ge : hmGet d.entities eid with
      | none =>
        rw [ge] at h
        simp at h
        exact h.symm
      | some ent =>
        simp only [ge] at h
        by_cases hn : ent.name = some nm
        · simp [if_pos hn] at h
        · simp only [if_neg hn] at h
          exact (ihf f0 (Nat.lt_succ_self f0)).2 d ent.children_ids nm e h

/-- Every error path resolution produces is BadReference. -/
theorem resolve_entity_path_err_bad (fuel : Nat) (d : Document) (start : Nat) :
    ∀ (path : EntityPath) (e : DocError),
    resolve_entity_path fuel d start path = some (.error e) → e = .BadReference := by
  intro path
  induction path with
  | this => intro e h; simp [resolve_entity_path] at h
  | parent =>
    intro e h
    simp only [resolve_entity_path] at h
    match g : hmGet d.entities start with
    | none => rw [g] at h; simp at h; exact h.symm
    | some ent => rw [g] at h; simp at h
  | named n =>
    intro e h
    simp only [resolve_entity_path] at h
    match g : hmGet d.entity_ids_by_name n with
    | none => rw [g] at h; simp at h; exact h.symm
    | some i => rw [g] at h; simp at h
  | search base childName ihb =>
    intro e h
    simp only [resolve_entity_path] at h
    match g : resolve_entity_path fuel d start base with
    | none => rw [g] at h; simp at h
    | some (.error e2) =>
      rw [g] at h
      simp at h
      rw [← h]
      exact ihb e2 g
    | some (.ok ent) =>
      simp only [g] at h
      exact (search_children_err_bad fuel).1 d ent childName e h

theorem resolve_named_prop_ref_err_bad (fuel : Nat) (d : Document) (start : Nat)
    (npr : NamedPropRef) (e : DocError)
    (h : resolve_named_prop_ref fuel d start npr = some (.error e)) : e = .BadReference := by
  unfold resolve_named_prop_ref at h
  match g : resolve_entity_path fuel d start npr.entity_path with
  | none => rw [g] at h; simp at h
  | some (.error e2) =>
    rw [g] at h
    simp at h
    rw [← h]
    exact resolve_entity_path_err_bad fuel d start npr.entity_path e2 g
  | some (.ok owner) => rw [g] at h; simp at h

/-- A failing resolution loop fails on one of its references. -/
theorem resolve_refs_err_mem (fuel : Nat) (d : Document) (start : Nat) :
    ∀ (refs : List NamedPropRef) (e : DocError),
    resolve_refs fuel d start refs = some (.error e) →
    ∃ npr ∈ refs, resolve_named_prop_ref fuel d start npr = some (.error e) := by
  intro refs
  induction refs with
  | nil => intro e h; simp [resolve_refs] at h
  | cons npr0 rest ih =>
    intro e h
    unfold resolve_refs at h
    match g0 : resolve_named_prop_ref fuel d start npr0 with
    | none => rw [g0] at h; simp at h
    | some (.error e2) =>
      rw [g0] at h
      simp at h
      exact ⟨npr0, List.mem_cons_self npr0 rest, by rw [g0, h]⟩
    | some (.ok pr0) =>
      simp only [g0] at h
      match g1 : resolve_refs fuel d start rest with
      | none => rw [g1] at h; simp at h
      | some (.ok prs) => rw [g1] at h; simp at h
      | some (.error e2) =>
        rw [g1] at h
        simp at h
        obtain ⟨npr, hm, he⟩ := ih e2 g1
        exact ⟨npr, List.mem_cons_of_mem npr0 hm, by rw [he, h]⟩

/-- C5.  For every set_property whose expression references an entity by
a name absent from the name index, linking fails with BadReference and
the document is returned unchanged; if the assigned property did not
already exist, a subsequent read yields NoSuchProperty.  (The hypothesis
that the dependency enumeration terminates rules out a reference whose
path search diverges before the bad reference is reached.) -/
theorem c5_unknown_named_entity (fuel : Nat) (d : Document) (entity_id : Nat) (name : String)
    (expr : Pon) (entity : Entity) (n : String) (npr : NamedPropRef)
    (hent : hmGet d.entities entity_id = some entity)
    (hmem : npr ∈ expr.get_dependency_references)
    (hpath : npr.entity_path = .named n)
    (hmiss : hmGet d.entity_ids_by_name n = none)
    (hprop : hmGet entity.properties name = none)
    (hnd : build_property_node_dependencies fuel d entity expr ≠ none) :
    set_property fuel d entity_id name expr = some (d, .error .BadReference) ∧
    get_property_value d entity_id name = .error (.NoSuchProperty name) := by
  have hres : resolve_named_prop_ref fuel d entity.id npr = some (.error .BadReference) := by
    unfold resolve_named_prop_ref
    rw [hpath]
    simp only [resolve_entity_path, hmiss]
  have hbuild : build_property_node_dependencies fuel d entity expr =
      some (.error .BadReference) := by
    unfold build_property_node_dependencies at hnd ⊢
    match hb : resolve_refs fuel d entity.id expr.get_dependency_references with
    | none => exact absurd hb hnd
    | some (.ok prs) =>
      obtain ⟨pr, hok, _⟩ :=
        resolve_refs_mem fuel d entity.id expr.get_dependency_references prs hb npr hmem
      rw [hres] at hok
      simp at hok
    | some (.error e) =>
      obtain ⟨npr2, hm2, he2⟩ :=
        resolve_refs_err_mem fuel d entity.id expr.get_dependency_references e hb
      rw [resolve_named_prop_ref_err_bad fuel d entity.id npr2 e he2]
  refine ⟨set_property_resolution_failure fuel d entity_id name expr entity .BadReference
    hent hbuild, ?_⟩
  simp only [get_property_value, hent, get_entity_property_value, hprop]

theorem c5_unknown_named_entity_witness :
    set_property 9 docA 1 "y" (Pon.DependencyReference ⟨.named "what", "x"⟩) =
      some (docA, .error .BadReference) ∧
    get_property_value docA 1 "y" = .error (.NoSuchProperty "y") := by
  refine c5_unknown_named_entity 9 docA 1 "y" (Pon.DependencyReference ⟨.named "what", "x"⟩)
    (entOf docA 1) "what" ⟨.named "what", "x"⟩ ?_ ?_ rfl ?_ ?_ ?_ <;>
    simp [docA, docAfterSet, Document.new, append_entity, SENTINEL,
      build_property_node_dependencies, Pon.get_dependency_references, gdrFields, gdrList,
      resolve_refs, resolve_named_prop_ref, resolve_entity_path, hmGet, hmInsert, entOf]

/-- C6.  Over any run of append_entity calls the successful identifiers
are pairwise distinct and strictly increasing in call order, all strictly
above the starting counter; and each single successful append on a
document whose entity keys are bounded by its counter (true of every
reachable document) yields an identifier different from every identifier
in use (never reused), keeps the keys bounded, and appends the new
identifier at the end of its parent's children list. -/
theorem c6_identifier_freshness (d : Document) (ops : List (Nat × String × Option String)) :
    List.Pairwise (· < ·) (runAppends d ops).2 ∧
    (∀ i ∈ (runAppends d ops).2, d.id_counter < i) ∧
    (∀ (dd : Document) (p : Nat) (t : String) (n : Option String) (dd' : Document) (i : Nat),
      keysBounded dd → append_entity dd p t n = (dd', .ok i) →
      keysBounded dd' ∧ (∀ x e, hmGet dd.entities x = some e → x ≠ i) ∧
      (p ≠ SENTINEL → ∃ parent, hmGet dd.entities p = some parent ∧
        hmGet dd'.entities p =
          some ({ parent with children_ids := parent.children_ids ++ [i] }))) := by
  refine ⟨(runAppends_ids ops d).1, fun i hi => ((runAppends_ids ops d).2 i hi).1, ?_⟩
  intro dd p t n dd' i hbound happ
  obtain ⟨hi, hcnt, hcells, hixn, hixs, hor⟩ := append_entity_ok_inversion dd p t n dd' i happ
  have hfresh : ∀ x e, hmGet dd.entities x = some e → x ≠ i := by
    intro x e hx hxi
    have := hbound x e hx
    omega
  refine ⟨?_, hfresh, ?_⟩
  · intro x e hx
    rcases hor with ⟨hp, hents⟩ | ⟨hp, parent, hpar, hents⟩
    · rw [hents] at hx
      by_cases hxi : x = i
      · omega
      · rw [hmGet_hmInsert_ne dd.entities i x _ hxi] at hx
        have := hbound x e hx
        omega
    · rw [hents] at hx
      by_cases hxi : x = i
      · omega
      · rw [hmGet_hmInsert_ne _ i x _ hxi] at hx
        by_cases hxp : x = p
        · have := hbound p parent hpar
          omega
        · rw [hmGet_hmInsert_ne _ p x _ hxp] at hx
          have := hbound x e hx
          omega
  · intro hp
    rcases hor with ⟨hp2, _⟩ | ⟨_, parent, hpar, hents⟩
    · exact absurd hp2 hp
    · refine ⟨parent, hpar, ?_⟩
      rw [hents]
      have hpi : p ≠ i := by
        have := hbound p parent hpar
        omega
      rw [hmGet_hmInsert_ne _ i p _ hpi, hmGet_hmInsert_same]

theorem c6_identifier_freshness_witness :
    List.Pairwise (· < ·) (runAppends Document.new
      [(SENTINEL, "Root", none), (1, "A", some "a"), (1, "B", none)]).2 ∧
    (∀ i ∈ (runAppends Document.new
      [(SENTINEL, "Root", none), (1, "A", some "a"), (1, "B", none)]).2,
      Document.new.id_counter < i) ∧
    keysBounded docA ∧
    (∀ x e, hmGet docA.entities x = some e → x ≠ 2) ∧
    (∃ parent, hmGet docA.entities 1 = some parent ∧
      hmGet (append_entity docA 1 "B" none).1.entities 1 =
        some ({ parent with children_ids := parent.children_ids ++ [2] })) := by
  have hb : keysBounded docA := by
    intro x e hx
    have hx1 : x = 1 := by
      simp [docA, append_entity, Document.new, SENTINEL, hmGet, hmInsert] at hx
      exact hx.1.symm
    rw [hx1]
    simp [docA, append_entity, Document.new, SENTINEL]
  have happ : append_entity docA 1 "B" none = ((append_entity docA 1 "B" none).1, .ok 2) := by
    simp [docA, append_entity, Document.new, SENTINEL, hmGet, hmInsert]
  have hmain := (c6_identifier_freshness Document.new
    [(SENTINEL, "Root", none), (1, "A", some "a"), (1, "B", none)]).2.2
    docA 1 "B" none (append_entity docA 1 "B" none).1 2 hb happ
  exact ⟨(c6_identifier_freshness Document.new
      [(SENTINEL, "Root", none), (1, "A", some "a"), (1, "B", none)]).1,
    (c6_identifier_freshness Document.new
      [(SENTINEL, "Root", none), (1, "A", some "a"), (1, "B", none)]).2.1,
    hb, hmain.2.1, hmain.2.2 (by decide)⟩

/-- The parent check is the only way an append can fail: a valid parent
(or the sentinel) guarantees success with the next counter value. -/
theorem append_entity_succeeds (d : Document) (p : Nat) (t : String) (n : Option String)
    (hp : p = SENTINEL ∨ (hmGet d.entities p).isSome = true) :
    append_entity d p t n = ((append_entity d p t n).1, .ok (d.id_counter + 1)) := by
  unfold append_entity
  by_cases hs : p = SENTINEL
  · subst hs
    simp only [eq_self_iff_true, if_true]
  · simp only [if_neg hs]
    rcases hp with hp | hp
    · exact absurd hp hs
    · rw [show hmGet ({ d with id_counter := d.id_counter + 1 } : Document).entities p =
        hmGet d.entities p from rfl]
      match g : hmGet d.entities p with
      | none => rw [g] at hp; simp at hp
      | some parent => cases n <;> rfl

/-- C7.  Appending a second entity with an already used name succeeds
(only the parent is validated), and afterwards a lookup by that name
answers the later entity's identifier; key uniqueness of the name index
is preserved, so it holds at most one identifier per name. -/
theorem c7_name_collision (d : Document) (p1 p2 : Nat) (t1 t2 : String) (n : String)
    (d1 : Document) (i1 : Nat)
    (h1 : append_entity d p1 t1 (some n) = (d1, .ok i1))
    (hp2 : p2 = SENTINEL ∨ (hmGet d1.entities p2).isSome = true)
    (hnd : NoDupKeys d.entity_ids_by_name) :
    ∃ d2 i2, append_entity d1 p2 t2 (some n) = (d2, .ok i2) ∧
      get_entity_by_name d2 n = some i2 ∧ NoDupKeys d2.entity_ids_by_name := by
  have hsucc := append_entity_succeeds d1 p2 t2 (some n) hp2
  refine ⟨(append_entity d1 p2 t2 (some n)).1, d1.id_counter + 1, hsucc, ?_, ?_⟩
  · have hinv := append_entity_ok_inversion d1 p2 t2 (some n) (append_entity d1 p2 t2 (some n)).1
      (d1.id_counter + 1) hsucc
    have hix := hinv.2.2.2.2.1 n rfl
    unfold get_entity_by_name
    rw [hix, hmGet_hmInsert_same]
  · have hinv1 := append_entity_ok_inversion d p1 t1 (some n) d1 i1 h1
    have hix1 := hinv1.2.2.2.2.1 n rfl
    have hinv2 := append_entity_ok_inversion d1 p2 t2 (some n) (append_entity d1 p2 t2 (some n)).1
      (d1.id_counter + 1) hsucc
    have hix2 := hinv2.2.2.2.2.1 n rfl
    rw [hix2, hix1]
    exact hmInsert_nodupKeys _ _ _ (hmInsert_nodupKeys _ _ _ hnd)

theorem c7_name_collision_witness :
    ∃ d2 i2, append_entity docA SENTINEL "Other" (some "tmp") = (d2, .ok i2) ∧
      get_entity_by_name d2 "tmp" = some i2 ∧ NoDupKeys d2.entity_ids_by_name := by
  exact c7_name_collision Document.new SENTINEL SENTINEL "Entity" "Other" "tmp" docA 1 rfl
    (Or.inl rfl) (by simp [Document.new, NoDupKeys])

/-- C8.  For an existing entity, a terminating search for a name agrees
with the specification: it returns the id of the first match of the
depth-first pre-order listing of the subtree (the entity itself if its
name matches, else its descendants in child-insertion order), and
BadReference when no entity of the subtree carries the name. -/
theorem c8_search_descendants (f g : Nat) (d : Document) (e : Nat) (name : String)
    (res : Except DocError Nat) (ls : List Entity)
    (hex : (hmGet d.entities e).isSome = true)
    (hs : search_children f d e name = some res)
    (hp : preorder d g e = some ls) :
    res = search_spec ls name :=
  (search_preorder_aux f).1 d g e name res ls hs hp

theorem c8_search_descendants_witness :
    (Except.ok 4 : Except DocError Nat) = search_spec docTreeListing "b" := by
  refine c8_search_descendants 9 9 docTree 1 "b" (.ok 4) docTreeListing ?_ ?_ ?_ <;>
    simp [docTree, docTreeListing, runAppends, append_entity, Document.new, SENTINEL,
      search_children, search_children_list, preorder, preorderList, hmGet, hmInsert]

/-- C10.  Whenever dependency enumeration and resolution succeed and the
registration loop completes, re-resolving the same expression with
resolve_pon_dependencies succeeds as well: every embedded reference
re-resolves (registration only grows dependant lists, which path
resolution never reads) and targets an existing entity, so in the source
the unwrap of its result at document.rs line 149 and the nested unwraps
in the object and array branches (lines 294, 297) can never be reached
with an error value.  The hypothesis that the entity record carries its
own key as id holds in every reachable document. -/
theorem c10_internal_unwraps_safe (fuel : Nat) (d : Document) (entity_id : Nat) (name : String)
    (expr : Pon) (ent : Entity) (deps : List PropRef) (d1 : Document) (u : Unit)
    (hent : hmGet d.entities entity_id = some ent) (hid : ent.id = entity_id)
    (hdeps : build_property_node_dependencies fuel d ent expr = some (.ok deps))
    (hreg : register_dependants d deps { entity_id := entity_id, property_key := name } =
      (d1, .ok u)) :
    ∃ d2 r, resolve_pon_dependencies fuel d1 entity_id expr = some (d2, .ok r) := by
  have her : d1.erase_dependants = d.erase_dependants := by
    have := register_dependants_erase deps d { entity_id := entity_id, property_key := name }
    rw [hreg] at this
    exact this
  have hstruct : struct_eq d1 d := erase_eq_struct_eq her
  unfold build_property_node_dependencies at hdeps
  have hmem := resolve_refs_mem fuel d ent.id expr.get_dependency_references deps hdeps
  have hhyp : RpdHyp fuel d entity_id expr.get_dependency_references := by
    intro npr hnpr
    obtain ⟨pr, hres, hprs⟩ := hmem npr hnpr
    refine ⟨pr, by rw [← hid]; exact hres, ?_⟩
    exact propGet_isSome_entity d pr
      (register_ok_propGet_isSome deps d { entity_id := entity_id, property_key := name }
        d1 u hreg pr hprs)
  obtain ⟨d2, r, hres, _⟩ :=
    resolve_pon_dependencies_ok fuel d entity_id expr d1 hstruct hhyp
  exact ⟨d2, r, hres⟩

theorem c10_internal_unwraps_safe_witness :
    ∃ d2 r, resolve_pon_dependencies 9
      (register_dependants docB [{ entity_id := 1, property_key := "a" }]
        { entity_id := 1, property_key := "y" }).1
      1 (Pon.DependencyReference ⟨.this, "a"⟩) = some (d2, .ok r) := by
  refine c10_internal_unwraps_safe 9 docB 1 "y" (Pon.DependencyReference ⟨.this, "a"⟩)
    (entOf docB 1) [{ entity_id := 1, property_key := "a" }]
    (register_dependants docB [{ entity_id := 1, property_key := "a" }]
      { entity_id := 1, property_key := "y" }).1 () ?_ ?_ ?_ ?_ <;>
    simp [docB, docA, docAfterSet, Document.new, append_entity, SENTINEL, set_property,
      build_property_node_dependencies, Pon.get_dependency_references, gdrFields, gdrList,
      resolve_refs, resolve_named_prop_ref, resolve_entity_path, register_dependants,
      push_dependant, pushProp, pushEnt, resolve_pon_dependencies,
      Entity.get_or_create_property, installProp, build_property_cascades, bpcLoop, hmGet,
      hmInsert, entOf]

theorem installProp_some (d3 : Document) (eid : Nat) (name : String) (cid : Nat)
    (ent : Entity) (p : Property) (hp : hmGet ent.properties name = some p) :
    installProp d3 eid name cid ent =
      { d3 with entities := hmInsert d3.entities eid (installedEnt ent name p cid) } := by
  unfold installProp installedEnt installedProp
  simp only [hp]

/-- C9.  For every successful set_property on a property that already
exists, the property keeps its dependant list unchanged and only its
expression cell handle is replaced, by a handle to a cell allocated
during the call (its index is at least the old arena size).  The
registration loop can add an entry to this very list only when the
expression references the assigned property itself, and then the cascade
walk re-enters the origin for ever, so the call cannot succeed. -/
theorem c9_dependant_frame (fuel : Nat) (d : Document) (entity_id : Nat) (name : String)
    (expr : Pon) (d' : Document) (cs : List PropRef) (p : Property)
    (hprev : propGet d { entity_id := entity_id, property_key := name } = some p)
    (h : set_property fuel d entity_id name expr = some (d', .ok cs)) :
    ∃ p2, propGet d' { entity_id := entity_id, property_key := name } = some p2 ∧
      p2.dependants = p.dependants ∧ d.cells.length ≤ p2.expression := by
  obtain ⟨entity, deps, d1, u, d2, resolved, ent_mut, entity2, g1, g2, g3, g4, g5, hd', g6, g7⟩ :=
    set_property_ok_inversion fuel d entity_id name expr d' cs h
  have her : d1.erase_dependants = d.erase_dependants := by
    have := register_dependants_erase deps d { entity_id := entity_id, property_key := name }
    rw [g3] at this
    exact this
  have hcells1 : d1.cells = d.cells := erase_eq_cells her
  obtain ⟨hpres2, ext2, hcells2⟩ :=
    resolve_pon_dependencies_preserve fuel entity_id expr d1 d2 resolved g4
  have hnotmem : ({ entity_id := entity_id, property_key := name } : PropRef) ∉ deps := by
    intro hmem
    obtain ⟨pA, hA1, hAmem⟩ := register_pushes_mem deps d
      { entity_id := entity_id, property_key := name } d1 u g3
      { entity_id := entity_id, property_key := name } hmem
    have hA2 : propGet d2 { entity_id := entity_id, property_key := name } = some pA :=
      hpres2 { entity_id := entity_id, property_key := name } pA hA1
    have hentm : hmGet ent_mut.properties name = some pA := by
      unfold propGet at hA2
      dsimp only at hA2
      rw [g5] at hA2
      simpa using hA2
    have hd'self : propGet d' { entity_id := entity_id, property_key := name } =
        some (installedProp pA d2.cells.length) := by
      rw [hd', installProp_some _ _ _ _ _ pA hentm]
      unfold propGet
      dsimp only
      rw [hmGet_hmInsert_same]
      simp only [Option.some_bind]
      unfold installedEnt
      dsimp only
      rw [hmGet_hmInsert_same]
    have hent2prop : hmGet entity2.properties name = some (installedProp pA d2.cells.length) := by
      unfold propGet at hd'self
      dsimp only at hd'self
      rw [g6] at hd'self
      simpa using hd'self
    have hAmem2 : ({ entity_id := entity_id, property_key := name } : PropRef) ∈
        (installedProp pA d2.cells.length).dependants := hAmem
    match fuel, g7 with
    | 0, g7 => simp [build_property_cascades] at g7
    | f + 1, g7 =>
      simp only [build_property_cascades] at g7
      rw [hent2prop] at g7
      simp only at g7
      exact bpcLoop_self_cycle d' { entity_id := entity_id, property_key := name } entity2
        (installedProp pA d2.cells.length) g6 hent2prop hAmem2 f _
        [{ entity_id := entity_id, property_key := name }] cs hAmem2 g7
  have hkeep1 : propGet d1 { entity_id := entity_id, property_key := name } = some p := by
    have hh := register_propGet_nonmember deps d
      { entity_id := entity_id, property_key := name }
      { entity_id := entity_id, property_key := name } hnotmem
    rw [g3] at hh
    dsimp only at hh
    rw [hh, hprev]
  have hkeep2 : propGet d2 { entity_id := entity_id, property_key := name } = some p :=
    hpres2 { entity_id := entity_id, property_key := name } p hkeep1
  have hentm : hmGet ent_mut.properties name = some p := by
    unfold propGet at hkeep2
    dsimp only at hkeep2
    rw [g5] at hkeep2
    simpa using hkeep2
  have hd'self : propGet d' { entity_id := entity_id, property_key := name } =
      some (installedProp p d2.cells.length) := by
    rw [hd', installProp_some _ _ _ _ _ p hentm]
    unfold propGet
    dsimp only
    rw [hmGet_hmInsert_same]
    simp only [Option.some_bind]
    unfold installedEnt
    dsimp only
    rw [hmGet_hmInsert_same]
  refine ⟨installedProp p d2.cells.length, hd'self, rfl, ?_⟩
  show d.cells.length ≤ d2.cells.length
  rw [hcells2, hcells1]
  simp

theorem c9_dependant_frame_witness :
    ∃ p2, propGet docC4b { entity_id := 1, property_key := "a" } = some p2 ∧
      p2.dependants = [{ entity_id := 1, property_key := "b" }] ∧
      docC4.cells.length ≤ p2.expression := by
  have hmain := c9_dependant_frame 9 docC4 1 "a" (Pon.Integer 7) docC4b
    [{ entity_id := 1, property_key := "a" }, { entity_id := 1, property_key := "b" }]
    { expression := 0, dependants := [{ entity_id := 1, property_key := "b" }] }
    (by
      simp [docC4, docB, docA, docAfterSet, Document.new, append_entity, SENTINEL,
        set_property, build_property_node_dependencies, Pon.get_dependency_references,
        gdrFields, gdrList, resolve_refs, resolve_named_prop_ref, resolve_entity_path,
        register_dependants, push_dependant, pushProp, pushEnt, resolve_pon_dependencies,
        rpdFields, rpdList, Entity.get_or_create_property, installProp,
        build_property_cascades, bpcLoop, hmGet, hmInsert, propGet])
    (by
      simp [docC4b, docC4, docB, docA, docAfterSet, Document.new, append_entity, SENTINEL,
        set_property, build_property_node_dependencies, Pon.get_dependency_references,
        gdrFields, gdrList, resolve_refs, resolve_named_prop_ref, resolve_entity_path,
        register_dependants, push_dependant, pushProp, pushEnt, resolve_pon_dependencies,
        rpdFields, rpdList, Entity.get_or_create_property, installProp,
        build_property_cascades, bpcLoop, hmGet, hmInsert])
  exact hmain
